import Mathlib

/-!
Shallow embedding of `src/manifest.rs` (cargo-deb's manifest / asset-resolution
engine) and proofs about it.

Modelling conventions:
* Rust `PathBuf` / `&Path` values are modelled as `String`; the path
  operations used by the source (`is_absolute`, `strip_prefix`, `join`,
  `file_name`, `starts_with`, `parent`, component iteration) are defined
  below on the underlying character list, following Rust's component
  semantics (consecutive separators and `.` segments are normalized away
  by component iteration, a leading `/` is the root component).
* Fallible Rust code (`Result` + `?`) and Rust panics (`expect`, `unwrap`)
  are both modelled as `Except String`: in either case the function does
  not return a value.
* The ambient effects (filesystem globbing, `is_dir`, file reads, file
  existence, the external shared-library dependency resolver, and the host
  architecture constant) are injected as an `Env` record, exactly the
  "injected capabilities" reading suggested by the design notes. Globbing
  is fallible on both levels of the `glob` crate: `glob::glob` can fail
  with a pattern error, and each enumerated entry can fail with an IO
  error; both are fatal through `?` in the source and therefore fatal in
  the model.
* One known divergence of the component model: Rust keeps a leading `.`
  component (`CurDir`) while this model drops every `.` segment, so the
  two differ on paths spelled with a leading `./`; no path in this
  development is spelled that way.
* `eprintln!` warnings emitted during dependency aggregation are modelled
  by accumulating the formatted warning strings in the result.

All definitions are executable and kernel-reducible, so concrete runs are
settled with `decide`/`rfl`.
-/

/-- Decidable equality for `Except`, needed to evaluate concrete runs. -/
instance (priority := low) exceptDecEq {ε α : Type} [DecidableEq ε] [DecidableEq α] :
    DecidableEq (Except ε α) := fun a b =>
  match a, b with
  | .ok x, .ok y =>
    if h : x = y then .isTrue (by rw [h]) else .isFalse (fun hh => h (by cases hh; rfl))
  | .error x, .error y =>
    if h : x = y then .isTrue (by rw [h]) else .isFalse (fun hh => h (by cases hh; rfl))
  | .ok _, .error _ => .isFalse (fun hh => by cases hh)
  | .error _, .ok _ => .isFalse (fun hh => by cases hh)

/-- Rust `str::contains(char)`, on the character list. -/
def strContains (s : String) (c : Char) : Bool := s.data.contains c

/-- Rust `str::starts_with`, on the character list. -/
def strStartsWith (s p : String) : Bool := p.data.isPrefixOf s.data

/-- Rust `str::ends_with`, on the character list. -/
def strEndsWith (s p : String) : Bool := p.data.reverse.isPrefixOf s.data.reverse

/-- Auxiliary splitter: split a character list at every occurrence of `c`. -/
def splitCharAux (c : Char) : List Char → List Char → List (List Char)
  | [], acc => [acc.reverse]
  | x :: xs, acc =>
    if x = c then acc.reverse :: splitCharAux c xs [] else splitCharAux c xs (x :: acc)

/-- Rust `str::split(c)`: always non-empty, keeps empty pieces. -/
def splitChar (c : Char) (s : String) : List String :=
  (splitCharAux c s.data []).map (fun l => ⟨l⟩)

/-- Rust `str::trim` (whitespace stripped from both ends). -/
def strTrim (s : String) : String :=
  ⟨((s.data.dropWhile Char.isWhitespace).reverse.dropWhile Char.isWhitespace).reverse⟩

/-- Decimal digit value of a character, if it is one. -/
def digitVal (c : Char) : Option Nat :=
  if '0' ≤ c ∧ c ≤ '9' then some (c.toNat - '0'.toNat) else none

/-- Octal digit value of a character, if it is one. -/
def octDigitVal (c : Char) : Option Nat :=
  if '0' ≤ c ∧ c ≤ '7' then some (c.toNat - '0'.toNat) else none

/-- Fold a digit list in a given radix. -/
def foldDigits (radix : Nat) : List Nat → Nat
  | [] => 0
  | d :: ds => d * radix ^ ds.length + foldDigits radix ds

/-- Rust `u32::from_str_radix(s, 8)`: an optional leading `+`, then one or
more octal digits; fails on an empty digit string, a non-octal character,
or 32-bit overflow. -/
def parseOctal (s : String) : Option Nat :=
  let cs := if s.data.headD ' ' = '+' then s.data.tail else s.data
  if cs.isEmpty then none
  else match cs.mapM octDigitVal with
    | none => none
    | some ds =>
      let v := foldDigits 8 ds
      if v < 2 ^ 32 then some v else none

/-- Rust `str::parse::<usize>()` (decimal, 64-bit usize), as used for the
license-file line count. -/
def parseDecimal (s : String) : Option Nat :=
  let cs := if s.data.headD ' ' = '+' then s.data.tail else s.data
  if cs.isEmpty then none
  else match cs.mapM digitVal with
    | none => none
    | some ds =>
      let v := foldDigits 10 ds
      if v < 2 ^ 64 then some v else none

/-- Join a list of strings with a separator (Rust `[..].join(sep)` /
`Vec::join`). -/
def joinSep (sep : String) : List String → String
  | [] => ""
  | [x] => x
  | x :: xs => x ++ sep ++ joinSep sep xs

/-- Normal path components: split on `/`, dropping empty and `.` segments,
mirroring Rust's `Path::components` normalization. -/
def pathComponents (p : String) : List String :=
  (splitChar '/' p).filter (fun c => c != "" && c != ".")

/-- Components including the root: a leading `/` contributes a root
component (written `"/"`), as in Rust's `Component::RootDir`. -/
def fullComponents (p : String) : List String :=
  (if strStartsWith p "/" then ["/"] else []) ++ pathComponents p

/-- Intercalate components with `/` (Rust `Components::as_path` /
`collect::<PathBuf>` for relative component runs). -/
def joinComponents : List String → String
  | [] => ""
  | [c] => c
  | c :: cs => c ++ "/" ++ joinComponents cs

/-- Rust `collect::<PathBuf>()` over a component run that may start with the
root component. -/
def collectPath (cs : List String) : String :=
  match cs with
  | "/" :: rest => "/" ++ joinComponents rest
  | cs => joinComponents cs

/-- Rust `Path::is_absolute` (Unix: has a root). -/
def pathIsAbsolute (p : String) : Bool := strStartsWith p "/"

/-- Rust `PathBuf::push` / `Path::join`: an absolute right operand replaces
the path, otherwise a separator is inserted when needed. -/
def pathJoin (a b : String) : String :=
  if pathIsAbsolute b then b
  else if a = "" then b
  else if strEndsWith a "/" then a ++ b
  else a ++ "/" ++ b

/-- Rust `Path::strip_prefix`, component-based; the remainder is returned
as a relative path. -/
def pathStripPrefix (p pre : String) : Option String :=
  if (fullComponents pre).isPrefixOf (fullComponents p)
  then some (joinComponents ((fullComponents p).drop (fullComponents pre).length))
  else none

/-- Rust `Path::starts_with`, component-based. -/
def pathStartsWith (p pre : String) : Bool :=
  (fullComponents pre).isPrefixOf (fullComponents p)

/-- Rust `Path::parent`: drop the last normal component; `none` when there
is no component to drop. -/
def pathParent (p : String) : Option String :=
  match pathComponents p with
  | [] => none
  | cs => some ((if strStartsWith p "/" then "/" else "") ++ joinComponents cs.dropLast)

/-- Rust `Path::file_name`: the last normal component, unless it is `..`. -/
def pathFileName (p : String) : Option String :=
  match (pathComponents p).getLast? with
  | none => none
  | some c => if c = ".." then none else some c

/-- Function `is_glob_pattern` from `src/manifest.rs:14`. -/
def is_glob_pattern (s : String) : Bool :=
  strContains s '*' || strContains s '[' || strContains s ']' || strContains s '!'

/-- Struct `Asset` from `src/manifest.rs:19`. -/
structure Asset where
  source_file : String
  target_path : String
  chmod : Nat
deriving DecidableEq, Repr

/-- Constructor `Asset::new` from `src/manifest.rs:26`. The absolute-destination branch
strips the root (Rust's `strip_prefix("/")` keeps the rest of the original
string, so leading separators are removed and a trailing separator
survives); the trailing-separator branch appends the source's file name,
aborting (`expect("source must be a file")`) when the source has none. -/
def Asset.new (source_file target_path : String) (chmod : Nat) : Except String Asset := do
  let target_path :=
    if pathIsAbsolute target_path then ⟨target_path.data.dropWhile (fun c => c == '/')⟩
    else target_path
  let target_path ←
    if strEndsWith target_path "/" then
      match pathFileName source_file with
      | some name => pure (pathJoin target_path name)
      | none => .error "source must be a file"
    else pure target_path
  pure { source_file := source_file, target_path := target_path, chmod := chmod }

/-- Predicate `Asset::is_binary_executable` from `src/manifest.rs:40`. -/
def Asset.is_binary_executable (a : Asset) (workspace_root release_dir_prefix : String) : Bool :=
  pathStartsWith (pathJoin workspace_root a.source_file) release_dir_prefix
    && (a.chmod &&& 0o111 != 0)

example : Asset.new "foo/bar" "baz/" 0o644 =
    .ok { source_file := "foo/bar", target_path := "baz/bar", chmod := 420 } := by decide
example : Asset.new "foo/bar" "/baz/quz" 0o644 =
    .ok { source_file := "foo/bar", target_path := "baz/quz", chmod := 420 } := by decide

/-- The injected ambient capabilities: filesystem globbing (`glob::glob`,
returning the matches in order), the `is_dir` test, text-file reading
(`file::get_text`), file existence (`Path::exists`), the shared-library
dependency resolver (`dependencies::resolve`), and the host architecture
constant (`std::env::consts::ARCH`). -/
structure Env where
  glob : String → Except String (List (Except String String))
  isDir : String → Bool
  readFile : String → Except String String
  pathExists : String → Bool
  resolve : String → String → Except String (List String)
  hostArch : String

/-- Struct `Config` from `src/manifest.rs:47`, with the same fields. -/
structure Config where
  workspace_root : String
  target : Option String
  target_dir : String
  name : String
  license : Option String
  license_file : Option String
  license_file_skip_lines : Nat
  copyright : String
  version : String
  homepage : Option String
  documentation : Option String
  repository : Option String
  description : String
  extended_description : Option String
  maintainer : String
  depends : String
  «section» : Option String
  priority : String
  conflicts : Option String
  breaks : Option String
  replaces : Option String
  provides : Option String
  architecture : String
  conf_files : Option String
  assets : List Asset
  maintainer_scripts : Option String
  features : List String
  default_features : Bool
  strip : Bool
deriving DecidableEq, Repr

/-- Method `Config::binaries` from `src/manifest.rs:163`: with an explicit target
the target-triple segment of `target_dir` is stripped
(`parent().expect("no target dir")`, modelled as a failure), then the
assets classified as binary executables under `<dir>/release` are kept. -/
def Config.binaries (c : Config) : Except String (List String) := do
  let target_dir ←
    if c.target.isSome then
      match pathParent c.target_dir with
      | some p => pure p
      | none => .error "no target dir"
    else pure c.target_dir
  let release_dir_prefix := pathJoin target_dir "release"
  pure ((c.assets.filter
    (fun a => a.is_binary_executable c.workspace_root release_dir_prefix)).map
      (fun a => a.source_file))

/-- Insertion into the dependency set: `HashSet::insert`, modelled as an
insertion-ordered duplicate-free list. -/
def insertSet (l : List String) (x : String) : List String :=
  if x ∈ l then l else l ++ [x]

/-- The warning printed by `Config::get_dependencies` when the resolver
fails for one binary (`src/manifest.rs:133`). -/
def warnMsg (err bname : String) : String :=
  "warning: " ++ err ++ " (no auto deps for " ++ bname ++ ")"

/-- One step of the `$auto` loop in `Config::get_dependencies`
(`src/manifest.rs:128`): resolve one binary, union its dependencies into
the set on success, record the advisory warning on failure. -/
def autoStep (env : Env) (arch : String) (acc : List String × List String) (b : String) :
    List String × List String :=
  match env.resolve b arch with
  | .ok bindeps => (bindeps.foldl insertSet acc.1, acc.2)
  | .error err => (acc.1, acc.2 ++ [warnMsg err b])

/-- One comma-separated word of the dependency directive
(`src/manifest.rs:125`): trim it; the `$auto` sentinel resolves every
binary-classified asset, any other word is inserted literally. -/
def depWordStep (env : Env) (c : Config) (acc : List String × List String) (word : String) :
    Except String (List String × List String) :=
  let word := strTrim word
  if word = "$auto" then do
    let bs ← c.binaries
    pure (bs.foldl (autoStep env c.architecture) acc)
  else pure (insertSet acc.1 word, acc.2)

/-- The word loop of `Config::get_dependencies`. -/
def depWords (env : Env) (c : Config) : List String → List String × List String →
    Except String (List String × List String)
  | [], acc => .ok acc
  | w :: ws, acc =>
    match depWordStep env c acc w with
    | .ok acc2 => depWords env c ws acc2
    | .error e => .error e

/-- The dependency set and accumulated warnings of
`Config::get_dependencies` before joining. -/
def depCollect (env : Env) (c : Config) : Except String (List String × List String) :=
  depWords env c (splitChar ',' c.depends) ([], [])

/-- Method `Config::get_dependencies` from `src/manifest.rs:123`: the deduplicated
set joined with `", "`. -/
def Config.get_dependencies (env : Env) (c : Config) : Except String String := do
  let (deps, _warns) ← depCollect env c
  pure (joinSep ", " deps)

/-- The `match (arch, abi)` table of `get_arch` (`src/manifest.rs:512`),
with the arms in source order. -/
def debianTable (arch abi : String) : String :=
  if arch = "aarch64" then "arm64"
  else if arch = "mips64" ∧ abi = "gnuabin32" then "mipsn32"
  else if arch = "mips64el" ∧ abi = "gnuabin32" then "mipsn32el"
  else if arch = "mipsisa32r6" then "mipsr6"
  else if arch = "mipsisa32r6el" then "mipsr6el"
  else if arch = "mipsisa64r6" ∧ abi = "gnuabi64" then "mips64r6"
  else if arch = "mipsisa64r6" ∧ abi = "gnuabin32" then "mipsn32r6"
  else if arch = "mipsisa64r6el" ∧ abi = "gnuabi64" then "mips64r6el"
  else if arch = "mipsisa64r6el" ∧ abi = "gnuabin32" then "mipsn32r6el"
  else if arch = "powerpc" ∧ abi = "gnuspe" then "powerpcspe"
  else if arch = "powerpc64" then "ppc64"
  else if arch = "powerpc64le" then "ppc64el"
  else if arch = "i586" then "i386"
  else if arch = "i686" then "i386"
  else if arch = "x86" then "i386"
  else if arch = "x86_64" ∧ abi = "gnux32" then "x32"
  else if arch = "x86_64" then "amd64"
  else if strStartsWith arch "arm" = true ∧ strEndsWith abi "hf" = true then "armhf"
  else if strStartsWith arch "arm" = true then "armel"
  else arch

/-- Function `get_arch` from `src/manifest.rs:508`: Debianizes the architecture
name; `arch` is the first `-`-separated part of the triple, `abi` the
last of the remaining parts (or `""` when there is none). -/
def get_arch (target : String) : String :=
  debianTable ((splitChar '-' target).headD "")
    ((((splitChar '-' target).drop 1).getLast?).getD "")

example : get_arch "aarch64-unknown-linux-gnu" = "arm64" := by decide
example : get_arch "x86_64-unknown-linux-gnux32" = "x32" := by decide
example : get_arch "sparc64" = "sparc64" := by decide
example : get_arch "armv6-foo-bar-gnueabihf" = "armhf" := by decide

/-- Struct `CargoProfile` from `src/manifest.rs:432`. -/
structure CargoProfile where
  debug : Option Bool
deriving DecidableEq, Repr

/-- Struct `CargoProfiles` from `src/manifest.rs:427`. -/
structure CargoProfiles where
  release : Option CargoProfile
deriving DecidableEq, Repr

/-- Struct `CargoDeb` from `src/manifest.rs:446`. -/
structure CargoDeb where
  maintainer : Option String
  copyright : Option String
  license_file : Option (List String)
  changelog : Option String
  depends : Option String
  conflicts : Option String
  breaks : Option String
  replaces : Option String
  provides : Option String
  extended_description : Option String
  «section» : Option String
  priority : Option String
  revision : Option String
  conf_files : Option (List String)
  assets : Option (List (List String))
  maintainer_scripts : Option String
  features : Option (List String)
  default_features : Option Bool
deriving DecidableEq, Repr

/-- Default `CargoDeb::default()`: every field absent. -/
def CargoDeb.default : CargoDeb :=
  ⟨none, none, none, none, none, none, none, none, none, none, none, none, none,
   none, none, none, none, none⟩

/-- Struct `CargoPackageMetadata` from `src/manifest.rs:422`. -/
structure CargoPackageMetadata where
  deb : Option CargoDeb
deriving DecidableEq, Repr

/-- Struct `CargoPackage` from `src/manifest.rs:407`. -/
structure CargoPackage where
  name : String
  authors : Option (List String)
  license : Option String
  license_file : Option String
  homepage : Option String
  documentation : Option String
  repository : Option String
  version : String
  description : Option String
  readme : Option String
  metadata : Option CargoPackageMetadata
deriving DecidableEq, Repr

/-- Struct `Cargo` from `src/manifest.rs:221`. -/
structure Cargo where
  package : CargoPackage
  profile : Option CargoProfiles
deriving DecidableEq, Repr

/-- Struct `CargoMetadataTarget` from `src/manifest.rs:488`. -/
structure CargoMetadataTarget where
  name : String
  kind : List String
  crate_types : List String
deriving DecidableEq, Repr

/-- Method `Config::path_in_build` from `src/manifest.rs:203`, on the target
directory. -/
def path_in_build (target_dir rel_path : String) : String :=
  pathJoin (pathJoin target_dir "release") rel_path

/-- The source rewrite of the rule loop (`src/manifest.rs:344`): a source
under `target/release` is rewritten into the resolved build directory. -/
def effectiveSource (target_dir source0 : String) : String :=
  match pathStripPrefix source0 "target/release" with
  | some rest => path_in_build target_dir rest
  | none => source0

/-- Processing of one explicit asset rule, the body of the rule loop in
`Cargo::take_assets` (`src/manifest.rs:341`): take source, destination and
permission string; a source under `target/release` is rewritten into the
build directory; the permission string is parsed base-8; the pattern's
literal prefix is the longest leading run of components without glob
metacharacters; the filesystem is then enumerated (a pattern error is
fatal, as is an error on any enumerated entry), and each non-directory
match yields one Asset whose destination is the declared one, joined with
the match's suffix past the literal prefix when the source is a glob
pattern. The `unwrap` on `strip_prefix` is modelled as a failure. -/
def assetRule (env : Env) (target_dir : String) (v : List String) : Except String (List Asset) :=
  match v.get? 0 with
  | none => .error "missing path for asset"
  | some source0 =>
    let source_path := effectiveSource target_dir source0
    match v.get? 1 with
    | none => .error "missing target for asset"
    | some target_path =>
      match v.get? 2 with
      | none => .error "missing chmod for asset"
      | some modeStr =>
        match parseOctal modeStr with
        | none => .error "unable to parse chmod argument"
        | some mode =>
          let source_prefix :=
            collectPath ((fullComponents source_path).takeWhile (fun c => !is_glob_pattern c))
          match env.glob source_path with
          | .error e => .error e
          | .ok entries =>
            entries.foldlM
              (fun acc entry =>
                match entry with
                | .error e => .error e
                | .ok source_file =>
                  if env.isDir source_file then pure acc
                  else do
                    let target_file ←
                      if is_glob_pattern source_path then
                        match pathStripPrefix source_file source_prefix with
                        | some suffix => pure (pathJoin target_path suffix)
                        | none => .error "called Option::unwrap on a None value"
                      else pure target_path
                    let a ← Asset.new source_file target_file mode
                    pure (acc ++ [a]))
              []

/-- Method `Cargo::take_assets` from `src/manifest.rs:338`: with explicit rules,
expand each in order; with none, synthesize one Asset per binary build
target (mode 755 under `usr/bin`) plus, when a readme is referenced, a
documentation Asset for it (mode 644). -/
def Cargo.take_assets (self : Cargo) (env : Env) (target_dir : String)
    (assets : Option (List (List String))) (targets : List CargoMetadataTarget)
    (readme : Option String) : Except String (List Asset) :=
  match assets with
  | some assets =>
    assets.foldlM (fun acc v => do
      let as ← assetRule env target_dir v
      pure (acc ++ as)) []
  | none => do
    let bins := targets.filter
      (fun t => t.crate_types.contains "bin" && t.kind.contains "bin")
    let implied ← bins.mapM (fun bin =>
      Asset.new (path_in_build target_dir bin.name) (pathJoin "usr/bin" bin.name) 0o755)
    match readme with
    | some readme => do
      let a ← Asset.new readme
        (pathJoin (pathJoin "usr/share/doc" self.package.name) readme) 0o644
      pure (implied ++ [a])
    | none => pure implied

/-- Method `Cargo::check_config` from `src/manifest.rs:291`: the accumulated
non-fatal advisory warnings. -/
def Cargo.check_config (self : Cargo) (env : Env) (readme : Option String) (deb : CargoDeb) :
    List String :=
  let w : List String := []
  let w := if self.package.description.isNone
    then w ++ ["description field is missing in Cargo.toml"] else w
  let w := if self.package.license.isNone
    then w ++ ["license field is missing in Cargo.toml"] else w
  match readme with
  | some readme =>
    if deb.extended_description.isNone
        && (strEndsWith readme ".md" || strEndsWith readme ".markdown")
    then w ++ ["extended-description field missing. Using " ++ readme
               ++ ", but markdown may not render well."]
    else w
  | none =>
    match ["README.md", "README.txt", "README"].find? (fun p => env.pathExists p) with
    | some p => w ++ [p ++ " file exists, but is not specified in `readme` Cargo.toml field"]
    | none => w

/-- Method `Cargo::extended_description` from `src/manifest.rs:314`. -/
def Cargo.extended_description (_self : Cargo) (env : Env) (desc : Option String)
    (readme : Option String) : Except String (Option String) :=
  match desc with
  | some d => .ok (some d)
  | none =>
    match readme with
    | some readme =>
      match env.readFile readme with
      | .ok text => .ok (some text)
      | .error _ => .error "unable to read README"
    | none => .ok none

/-- Method `Cargo::license_file` from `src/manifest.rs:325`: an explicit override
is a 1–2-element list (file, then an optional decimal skip-line count,
defaulting to 0; non-numeric is fatal); otherwise the package's
license-file field with 0 skipped lines. -/
def Cargo.license_file_fn (self : Cargo) (license_file : Option (List String)) :
    Except String (Option String × Nat) :=
  match license_file with
  | some args =>
    let file := args.get? 0
    match args.get? 1 with
    | some lines =>
      match parseDecimal lines with
      | some n => .ok (file, n)
      | none => .error "invalid number of lines"
    | none => .ok (file, 0)
  | none => .ok (self.package.license_file, 0)

/-- Method `Cargo::version_string` from `src/manifest.rs:396`. -/
def Cargo.version_string (self : Cargo) (revision : Option String) : String :=
  match revision with
  | some r => self.package.version ++ "-" ++ r
  | none => self.package.version

/-- Method `Config::add_copyright_asset` from `src/manifest.rs:143`. -/
def Config.add_copyright_asset (c : Config) : Except String Config := do
  let path := pathJoin (pathJoin c.target_dir "debian") "copyright"
  let a ← Asset.new path (pathJoin (pathJoin "usr/share/doc" c.name) "copyright") 0o644
  pure { c with assets := c.assets ++ [a] }

/-- Method `Config::add_changelog_asset` from `src/manifest.rs:153`. -/
def Config.add_changelog_asset (c : Config) (changelog : Option String) : Except String Config :=
  match changelog with
  | some log_file => do
    let a ← Asset.new log_file (pathJoin (pathJoin "usr/share/doc" c.name) "changelog") 0o644
    pure { c with assets := c.assets ++ [a] }
  | none => pure c

/-- The packaging-directive record taken in `Cargo::to_config`
(`src/manifest.rs:237`): `package.metadata.deb`, defaulted when absent. -/
def Cargo.deb_of (self : Cargo) : CargoDeb :=
  ((self.package.metadata.bind (fun m => m.deb)).getD CargoDeb.default)

/-- The adjusted target directory of `Cargo::to_config`
(`src/manifest.rs:231`): cross-compilation appends the target triple. -/
def adjustedTargetDir (target_dir : String) (target : Option String) : String :=
  match target with
  | some t => pathJoin target_dir t
  | none => target_dir

/-- The copyright fallback of `Cargo::to_config` (`src/manifest.rs:250`):
the explicit value, else the joined author list, else fatal. -/
def copyrightOf (package : CargoPackage) (deb : CargoDeb) : Except String String :=
  match deb.copyright with
  | some c => pure c
  | none =>
    match package.authors with
    | some authors => pure (joinSep ", " authors)
    | none => .error "Package must have a copyright or authors"

/-- The maintainer fallback of `Cargo::to_config` (`src/manifest.rs:259`):
the explicit value, else the first author, else fatal. -/
def maintainerOf (package : CargoPackage) (deb : CargoDeb) : Except String String :=
  match deb.maintainer with
  | some m => pure m
  | none =>
    match package.authors.bind (fun a => a.get? 0) with
    | some a => pure a
    | none => .error "Package must have a maintainer or authors"

/-- Method `Cargo::to_config` from `src/manifest.rs:227`: derives every scalar
field (with the source's fallbacks and failure cases, in the source's
evaluation order), resolves the assets, fails fatally when the resolved
asset list is empty, then appends the synthesized copyright and optional
changelog assets. -/
def Cargo.to_config (self : Cargo) (env : Env) (root_targets : List CargoMetadataTarget)
    (workspace_root : String) (target_dir0 : String) (target : Option String) :
    Except String (Config × List String) := do
  let target_dir := adjustedTargetDir target_dir0 target
  let deb := self.deb_of
  let lfp ← self.license_file_fn deb.license_file
  let readme := self.package.readme
  let warnings := self.check_config env readme deb
  let copyright ← copyrightOf self.package deb
  let extended_description ← self.extended_description env deb.extended_description readme
  let maintainer ← maintainerOf self.package deb
  let config : Config := {
    workspace_root := workspace_root
    target := target
    target_dir := target_dir
    name := self.package.name
    license := self.package.license
    license_file := lfp.1
    license_file_skip_lines := lfp.2
    copyright := copyright
    version := self.version_string deb.revision
    homepage := self.package.homepage
    documentation := self.package.documentation
    repository := self.package.repository
    description := self.package.description.getD
      (self.package.name ++ " -- autogenerated Rust project")
    extended_description := extended_description
    maintainer := maintainer
    depends := deb.depends.getD "$auto"
    conflicts := deb.conflicts
    breaks := deb.breaks
    replaces := deb.replaces
    provides := deb.provides
    «section» := deb.«section»
    priority := deb.priority.getD "optional"
    architecture := get_arch (target.getD env.hostArch)
    conf_files := deb.conf_files.map (fun x => x.foldl (fun a b => a ++ b ++ "\n") "")
    assets := []
    maintainer_scripts := deb.maintainer_scripts
    features := deb.features.getD []
    default_features := deb.default_features.getD true
    strip := (((self.profile.bind (fun p => p.release)).bind (fun r => r.debug)).map
      (fun debug => !debug)).getD true
  }
  let assets ← self.take_assets env target_dir deb.assets root_targets readme
  if assets.isEmpty then
    .error "No binaries found. The package is empty. Please specify some assets to package in Cargo.toml"
  else do
    let config := { config with assets := config.assets ++ assets }
    let config ← config.add_copyright_asset
    let config ← config.add_changelog_asset deb.changelog
    pure (config, warnings)

/-! ### Supporting lemmas about the path model -/

theorem strData_append (a b : String) : (a ++ b).data = a.data ++ b.data := by
  cases a; cases b; rfl

theorem str_eq_empty_iff (s : String) : s = "" ↔ s.data = [] := by
  constructor
  · intro h; rw [h]
  · intro h; cases s; cases h; rfl

theorem pathIsAbsolute_iff (s : String) :
    pathIsAbsolute s = true ↔ ∃ t, s.data = '/' :: t := by
  unfold pathIsAbsolute strStartsWith
  have hd : "/".data = ['/'] := rfl
  rw [hd]
  cases h : s.data with
  | nil => simp [List.isPrefixOf]
  | cons c t =>
    have hunf : List.isPrefixOf ['/'] (c :: t) = ('/' == c && List.isPrefixOf [] t) := rfl
    have hnil : List.isPrefixOf ([] : List Char) t = true := by cases t <;> rfl
    rw [hunf, hnil, Bool.and_true, beq_iff_eq]
    constructor
    · intro hc; exact ⟨t, by rw [← hc]⟩
    · rintro ⟨t', ht'⟩
      exact ((List.cons.inj ht').1).symm

theorem pathIsAbsolute_append (a b : String) (ha : a ≠ "") :
    pathIsAbsolute (a ++ b) = pathIsAbsolute a := by
  have ha2 : a.data ≠ [] := fun hh => ha ((str_eq_empty_iff a).2 hh)
  cases hd : a.data with
  | nil => exact absurd hd ha2
  | cons c t =>
    by_cases hc : c = '/'
    · subst hc
      have h1 : pathIsAbsolute (a ++ b) = true := by
        rw [pathIsAbsolute_iff]; exact ⟨t ++ b.data, by rw [strData_append, hd]; rfl⟩
      have h2 : pathIsAbsolute a = true := by rw [pathIsAbsolute_iff]; exact ⟨t, hd⟩
      rw [h1, h2]
    · have h1 : pathIsAbsolute (a ++ b) = false := by
        rw [Bool.eq_false_iff]
        intro hcon
        rcases (pathIsAbsolute_iff _).1 hcon with ⟨t', ht'⟩
        rw [strData_append, hd] at ht'
        exact hc (List.cons.inj ht').1
      have h2 : pathIsAbsolute a = false := by
        rw [Bool.eq_false_iff]
        intro hcon
        rcases (pathIsAbsolute_iff _).1 hcon with ⟨t', ht'⟩
        rw [hd] at ht'
        exact hc (List.cons.inj ht').1
      rw [h1, h2]

theorem dropWhileSlash_not_abs (l : List Char) :
    pathIsAbsolute ⟨l.dropWhile (fun c => c == '/')⟩ = false := by
  induction l with
  | nil => decide
  | cons c t ih =>
    by_cases hc : (c == '/') = true
    · rw [List.dropWhile_cons, if_pos hc]
      exact ih
    · rw [List.dropWhile_cons, if_neg hc]
      rw [Bool.eq_false_iff]
      intro hcon
      rcases (pathIsAbsolute_iff _).1 hcon with ⟨t', ht'⟩
      exact hc (by simpa using (List.cons.inj ht').1)

theorem pathJoin_not_abs (a b : String) (ha : pathIsAbsolute a = false)
    (hb : pathIsAbsolute b = false) : pathIsAbsolute (pathJoin a b) = false := by
  unfold pathJoin
  rw [hb]
  simp only [Bool.false_eq_true, if_false]
  by_cases hae : a = ""
  · rw [if_pos hae]; exact hb
  · rw [if_neg hae]
    by_cases hsl : strEndsWith a "/" = true
    · rw [if_pos hsl, pathIsAbsolute_append a b hae, ha]
    · rw [if_neg hsl]
      have hne : a ++ "/" ≠ "" := by
        intro hcon
        rw [str_eq_empty_iff, strData_append] at hcon
        rcases List.append_eq_nil.mp hcon with ⟨hda, hds⟩
        exact absurd hds (by decide)
      have h1 : a ++ "/" ++ b = (a ++ "/") ++ b := rfl
      rw [h1, pathIsAbsolute_append _ b hne, pathIsAbsolute_append a _ hae, ha]

theorem mem_splitCharAux (c : Char) (l : List Char) :
    ∀ acc : List Char, c ∉ acc → ∀ p ∈ splitCharAux c l acc, c ∉ p := by
  induction l with
  | nil =>
    intro acc hacc p hp
    simp only [splitCharAux, List.mem_singleton] at hp
    subst hp
    simpa using hacc
  | cons x xs ih =>
    intro acc hacc p hp
    rw [splitCharAux] at hp
    by_cases hx : x = c
    · rw [if_pos hx, List.mem_cons] at hp
      rcases hp with hp | hp
      · subst hp; simpa using hacc
      · exact ih [] (by simp) p hp
    · rw [if_neg hx] at hp
      refine ih (x :: acc) ?_ p hp
      intro hmem
      rcases List.mem_cons.1 hmem with h | h
      · exact hx h.symm
      · exact hacc h

theorem mem_splitChar (c : Char) (s : String) (p : String) (hp : p ∈ splitChar c s) :
    c ∉ p.data := by
  unfold splitChar at hp
  rcases List.mem_map.1 hp with ⟨l, hl, hpl⟩
  subst hpl
  exact mem_splitCharAux c s.data [] (by simp) l hl

theorem mem_pathComponents (s p : String) (hp : p ∈ pathComponents s) :
    '/' ∉ p.data ∧ p ≠ "" ∧ p ≠ "." := by
  unfold pathComponents at hp
  rw [List.mem_filter] at hp
  rcases hp with ⟨hmem, hcond⟩
  simp only [Bool.and_eq_true, bne_iff_ne, ne_eq] at hcond
  exact ⟨mem_splitChar '/' s p hmem, hcond.1, hcond.2⟩

theorem pathComponent_not_abs (s p : String) (hp : p ∈ pathComponents s) :
    pathIsAbsolute p = false := by
  rcases mem_pathComponents s p hp with ⟨hns, _, _⟩
  rw [Bool.eq_false_iff]
  intro hcon
  rcases (pathIsAbsolute_iff _).1 hcon with ⟨t, ht⟩
  exact hns (by rw [ht]; exact List.mem_cons_self _ _)

theorem pathFileName_component (s n : String) (h : pathFileName s = some n) :
    n ∈ pathComponents s := by
  unfold pathFileName at h
  cases hl : (pathComponents s).getLast? with
  | none => rw [hl] at h; cases h
  | some c =>
    rw [hl] at h
    have h2 : (if c = ".." then (none : Option String) else some c) = some n := h
    by_cases hc : c = ".."
    · rw [if_pos hc] at h2; cases h2
    · rw [if_neg hc] at h2
      cases h2
      have hcm : n ∈ (pathComponents s).getLast? := by rw [Option.mem_def]; exact hl
      rcases List.mem_getLast?_eq_getLast hcm with ⟨hne, heq⟩
      rw [heq]
      exact List.getLast_mem hne

/-- Main normalization invariant of `Asset::new`: a successfully
constructed asset's destination is relative. -/
theorem asset_new_not_abs (src tgt : String) (m : Nat) (a : Asset)
    (h : Asset.new src tgt m = .ok a) : pathIsAbsolute a.target_path = false := by
  unfold Asset.new at h
  set t1 := if pathIsAbsolute tgt = true then
      (⟨tgt.data.dropWhile (fun c => c == '/')⟩ : String) else tgt with ht1
  have ht1abs : pathIsAbsolute t1 = false := by
    rw [ht1]
    by_cases habs : pathIsAbsolute tgt = true
    · rw [if_pos habs]; exact dropWhileSlash_not_abs tgt.data
    · rw [if_neg habs]; exact Bool.eq_false_iff.2 habs
  by_cases hsl : strEndsWith t1 "/" = true
  · rw [if_pos hsl] at h
    cases hfn : pathFileName src with
    | none => rw [hfn] at h; cases h
    | some name =>
      rw [hfn] at h
      simp only [bind, Except.bind, pure, Except.pure] at h
      cases h
      exact pathJoin_not_abs t1 name ht1abs
        (pathComponent_not_abs src name (pathFileName_component src name hfn))
  · rw [if_neg hsl] at h
    simp only [bind, Except.bind, pure, Except.pure] at h
    cases h
    exact ht1abs

/-- When the declared destination is relative and has no trailing
separator, `Asset::new` stores it verbatim. -/
theorem asset_new_plain (src tgt : String) (m : Nat)
    (habs : pathIsAbsolute tgt = false) (hsl : strEndsWith tgt "/" = false) :
    Asset.new src tgt m = .ok ⟨src, tgt, m⟩ := by
  unfold Asset.new
  rw [habs]
  simp only [Bool.false_eq_true, if_false]
  rw [hsl]
  simp only [Bool.false_eq_true, if_false]
  rfl

/-- C3: every Asset constructed by `Asset::new` stores a relative
destination: an absolute declared destination is rewritten by stripping
its leading separator (`/a/b` becomes `a/b`), a destination ending in a
separator is rewritten by appending the source's base name (`baz/` with
source base name `bar` becomes `baz/bar`), and construction fails when
such a trailing-separator destination's source has no base name. -/
theorem spec_asset_destination_normalized (src tgt : String) (m : Nat) (a : Asset)
    (h : Asset.new src tgt m = .ok a) :
    pathIsAbsolute a.target_path = false
    ∧ Asset.new "foo/bar" "/a/b" 420 = .ok ⟨"foo/bar", "a/b", 420⟩
    ∧ Asset.new "foo/bar" "baz/" 420 = .ok ⟨"foo/bar", "baz/bar", 420⟩
    ∧ (∀ src2 tgt2 m2, strEndsWith tgt2 "/" = true → pathIsAbsolute tgt2 = false →
        pathFileName src2 = none → Asset.new src2 tgt2 m2 = .error "source must be a file") := by
  refine ⟨asset_new_not_abs src tgt m a h, by decide, by decide, ?_⟩
  intro src2 tgt2 m2 hsl habs hfn
  unfold Asset.new
  rw [habs]
  simp only [Bool.false_eq_true, if_false]
  rw [hsl]
  simp only [if_true]
  rw [hfn]
  rfl

/-- Witness for C3 at destination `/a/b`. -/
theorem spec_asset_destination_normalized_witness :
    pathIsAbsolute (Asset.mk "foo/bar" "a/b" 420).target_path = false :=
  (spec_asset_destination_normalized "foo/bar" "/a/b" 420 ⟨"foo/bar", "a/b", 420⟩
    (by decide)).1

/-- Any ARM architecture (name starting with `arm`) is mapped by the
table to `armhf` when the abi suffix ends in `hf`, else to `armel`. -/
theorem debianTable_arm (arch abi : String) (harm : strStartsWith arch "arm" = true) :
    (strEndsWith abi "hf" = true → debianTable arch abi = "armhf")
    ∧ (strEndsWith abi "hf" = false → debianTable arch abi = "armel") := by
  have hne : ∀ s : String, strStartsWith s "arm" = false → arch ≠ s := by
    intro s hs he
    rw [he, hs] at harm
    cases harm
  unfold debianTable
  rw [if_neg (hne "aarch64" (by decide))]
  rw [if_neg (fun hc : _ ∧ _ => hne "mips64" (by decide) hc.1)]
  rw [if_neg (fun hc : _ ∧ _ => hne "mips64el" (by decide) hc.1)]
  rw [if_neg (hne "mipsisa32r6" (by decide))]
  rw [if_neg (hne "mipsisa32r6el" (by decide))]
  rw [if_neg (fun hc : _ ∧ _ => hne "mipsisa64r6" (by decide) hc.1)]
  rw [if_neg (fun hc : _ ∧ _ => hne "mipsisa64r6" (by decide) hc.1)]
  rw [if_neg (fun hc : _ ∧ _ => hne "mipsisa64r6el" (by decide) hc.1)]
  rw [if_neg (fun hc : _ ∧ _ => hne "mipsisa64r6el" (by decide) hc.1)]
  rw [if_neg (fun hc : _ ∧ _ => hne "powerpc" (by decide) hc.1)]
  rw [if_neg (hne "powerpc64" (by decide))]
  rw [if_neg (hne "powerpc64le" (by decide))]
  rw [if_neg (hne "i586" (by decide))]
  rw [if_neg (hne "i686" (by decide))]
  rw [if_neg (hne "x86" (by decide))]
  rw [if_neg (fun hc : _ ∧ _ => hne "x86_64" (by decide) hc.1)]
  rw [if_neg (hne "x86_64" (by decide))]
  constructor
  · intro hhf
    rw [if_pos ⟨harm, hhf⟩]
  · intro hhf
    rw [if_neg (fun hc : _ ∧ _ => by rw [hhf] at hc; cases hc.2)]
    rw [if_pos harm]

/-- An architecture name outside the recognized table and not an ARM name
passes through the table unchanged. -/
theorem debianTable_passthrough (arch abi : String)
    (hnot : arch ∉ ["aarch64", "mips64", "mips64el", "mipsisa32r6", "mipsisa32r6el",
      "mipsisa64r6", "mipsisa64r6el", "powerpc", "powerpc64", "powerpc64le",
      "i586", "i686", "x86", "x86_64"])
    (hnarm : strStartsWith arch "arm" = false) : debianTable arch abi = arch := by
  simp only [List.mem_cons, List.not_mem_nil, or_false, not_or] at hnot
  obtain ⟨n1, n2, n3, n4, n5, n6, n7, n8, n9, n10, n11, n12, n13, n14⟩ := hnot
  unfold debianTable
  rw [if_neg n1]
  rw [if_neg (fun hc : _ ∧ _ => n2 hc.1)]
  rw [if_neg (fun hc : _ ∧ _ => n3 hc.1)]
  rw [if_neg n4]
  rw [if_neg n5]
  rw [if_neg (fun hc : _ ∧ _ => n6 hc.1)]
  rw [if_neg (fun hc : _ ∧ _ => n6 hc.1)]
  rw [if_neg (fun hc : _ ∧ _ => n7 hc.1)]
  rw [if_neg (fun hc : _ ∧ _ => n7 hc.1)]
  rw [if_neg (fun hc : _ ∧ _ => n8 hc.1)]
  rw [if_neg n9]
  rw [if_neg n10]
  rw [if_neg n11]
  rw [if_neg n12]
  rw [if_neg n13]
  rw [if_neg (fun hc : _ ∧ _ => n14 hc.1)]
  rw [if_neg n14]
  rw [if_neg (fun hc : _ ∧ _ => by rw [hnarm] at hc; cases hc.1)]
  rw [if_neg (fun hc : _ = true => by rw [hnarm] at hc; cases hc)]

/-- C6: the architecture mapper sends `aarch64-unknown-linux-gnu` to
`arm64`, `x86_64-unknown-linux-musl` to `amd64`,
`armv7-unknown-linux-gnueabihf` to `armhf` and
`armv7-unknown-linux-gnueabi` to `armel`; any ARM arch (first triple
component starting with `arm`) maps to `armhf` exactly when the abi
suffix ends in `hf` and to `armel` otherwise; and an arch name outside
the recognized table passes through unchanged. `get_arch` is a total
function, so it never fails. -/
theorem spec_get_arch_mapping (t arch abi : String)
    (h1 : (splitChar '-' t).headD "" = arch)
    (h2 : (((splitChar '-' t).drop 1).getLast?).getD "" = abi) :
    get_arch "aarch64-unknown-linux-gnu" = "arm64"
    ∧ get_arch "x86_64-unknown-linux-musl" = "amd64"
    ∧ get_arch "armv7-unknown-linux-gnueabihf" = "armhf"
    ∧ get_arch "armv7-unknown-linux-gnueabi" = "armel"
    ∧ (strStartsWith arch "arm" = true →
        (strEndsWith abi "hf" = true → get_arch t = "armhf")
        ∧ (strEndsWith abi "hf" = false → get_arch t = "armel"))
    ∧ (arch ∉ ["aarch64", "mips64", "mips64el", "mipsisa32r6", "mipsisa32r6el",
        "mipsisa64r6", "mipsisa64r6el", "powerpc", "powerpc64", "powerpc64le",
        "i586", "i686", "x86", "x86_64"] →
       strStartsWith arch "arm" = false → get_arch t = arch) := by
  have hg : get_arch t = debianTable arch abi := by
    unfold get_arch
    rw [h1, h2]
  refine ⟨by decide, by decide, by decide, by decide, ?_, ?_⟩
  · intro harm
    rw [hg]
    exact debianTable_arm arch abi harm
  · intro hnot hnarm
    rw [hg]
    exact debianTable_passthrough arch abi hnot hnarm

/-- Witness for C6 at the ARM triple `armv6-unknown-linux-gnueabihf`,
which is none of the four concrete table entries. -/
theorem spec_get_arch_mapping_witness :
    get_arch "armv6-unknown-linux-gnueabihf" = "armhf" :=
  ((spec_get_arch_mapping "armv6-unknown-linux-gnueabihf" "armv6" "gnueabihf"
    (by decide) (by decide)).2.2.2.2.1 (by decide)).1 (by decide)

/-! ### Except-monad reduction helpers and success lemmas -/

theorem exceptBind_ok {ε α β : Type} (x : α) (f : α → Except ε β) :
    (Except.ok x >>= f) = f x := rfl

theorem exceptBind_err {ε α β : Type} (e : ε) (f : α → Except ε β) :
    ((Except.error e : Except ε α) >>= f) = Except.error e := rfl

theorem strEndsWith_slash_eq (l : List Char) :
    strEndsWith ⟨l⟩ "/" = pathIsAbsolute ⟨l.reverse⟩ := rfl

theorem strEndsWith_slash_dropWhile (l : List Char) (p : Char → Bool)
    (h : strEndsWith ⟨l⟩ "/" = false) : strEndsWith ⟨l.dropWhile p⟩ "/" = false := by
  rw [strEndsWith_slash_eq] at h ⊢
  rw [Bool.eq_false_iff] at h ⊢
  intro hcon
  apply h
  rcases (pathIsAbsolute_iff _).1 hcon with ⟨t, ht⟩
  rcases List.dropWhile_suffix p (l := l) with ⟨pre, hpre⟩
  rw [pathIsAbsolute_iff]
  refine ⟨t ++ pre.reverse, ?_⟩
  show l.reverse = '/' :: (t ++ pre.reverse)
  have hrev : l.reverse = (l.dropWhile p).reverse ++ pre.reverse := by
    rw [← List.reverse_append, hpre]
  have ht2 : (l.dropWhile p).reverse = '/' :: t := ht
  rw [hrev, ht2]
  rfl

theorem pathJoin_no_trailing_slash (a b : String) (hb : b ≠ "")
    (hbs : strEndsWith b "/" = false) : strEndsWith (pathJoin a b) "/" = false := by
  unfold pathJoin
  by_cases h1 : pathIsAbsolute b = true
  · rw [if_pos h1]; exact hbs
  · rw [if_neg h1]
    by_cases h2 : a = ""
    · rw [if_pos h2]; exact hbs
    · rw [if_neg h2]
      have key : ∀ x : String, strEndsWith (x ++ b) "/" = false := by
        intro x
        have hbne : (⟨b.data.reverse⟩ : String) ≠ "" := by
          intro hcon
          rw [str_eq_empty_iff] at hcon
          simp only [List.reverse_eq_nil_iff] at hcon
          exact hb ((str_eq_empty_iff b).2 hcon)
        have e1 : strEndsWith (x ++ b) "/"
            = pathIsAbsolute ((⟨b.data.reverse⟩ : String) ++ ⟨x.data.reverse⟩) := by
          have hr : (x ++ b).data.reverse = b.data.reverse ++ x.data.reverse := by
            rw [strData_append, List.reverse_append]
          calc strEndsWith (x ++ b) "/"
              = pathIsAbsolute ⟨(x ++ b).data.reverse⟩ := strEndsWith_slash_eq (x ++ b).data
            _ = pathIsAbsolute ⟨b.data.reverse ++ x.data.reverse⟩ := by rw [hr]
            _ = pathIsAbsolute ((⟨b.data.reverse⟩ : String) ++ ⟨x.data.reverse⟩) := rfl
        rw [e1, pathIsAbsolute_append _ _ hbne, ← strEndsWith_slash_eq b.data]
        exact hbs
      by_cases h3 : strEndsWith a "/" = true
      · rw [if_pos h3]; exact key a
      · rw [if_neg h3]
        have : a ++ "/" ++ b = (a ++ "/") ++ b := rfl
        rw [this]; exact key (a ++ "/")

theorem asset_new_ok (src tgt : String) (m : Nat) (h : strEndsWith tgt "/" = false) :
    ∃ a : Asset, Asset.new src tgt m = .ok a ∧ a.source_file = src ∧ a.chmod = m := by
  unfold Asset.new
  by_cases habs : pathIsAbsolute tgt = true
  · rw [if_pos habs]
    simp only []
    have h2 : strEndsWith (⟨tgt.data.dropWhile (fun c => c == '/')⟩ : String) "/" = false := by
      refine strEndsWith_slash_dropWhile tgt.data _ ?_
      cases tgt
      exact h
    rw [h2]
    simp only [Bool.false_eq_true, if_false]
    exact ⟨_, rfl, rfl, rfl⟩
  · rw [if_neg habs]
    simp only []
    rw [h]
    simp only [Bool.false_eq_true, if_false]
    exact ⟨_, rfl, rfl, rfl⟩

theorem add_copyright_asset_ok (c : Config) :
    ∃ a : Asset, c.add_copyright_asset = .ok { c with assets := c.assets ++ [a] } := by
  unfold Config.add_copyright_asset
  simp only []
  have h : strEndsWith (pathJoin (pathJoin "usr/share/doc" c.name) "copyright") "/" = false :=
    pathJoin_no_trailing_slash _ "copyright" (by decide) (by decide)
  rcases asset_new_ok (pathJoin (pathJoin c.target_dir "debian") "copyright") _ 0o644 h
    with ⟨a, ha, _, _⟩
  rw [ha]
  exact ⟨a, rfl⟩

theorem add_changelog_asset_ok (c : Config) (changelog : Option String) :
    (changelog = none → c.add_changelog_asset changelog = .ok c)
    ∧ (∀ lf, changelog = some lf →
        ∃ a : Asset, c.add_changelog_asset changelog = .ok { c with assets := c.assets ++ [a] }) := by
  constructor
  · intro h; rw [h]; rfl
  · intro lf h
    rw [h]
    unfold Config.add_changelog_asset
    simp only []
    have hsl : strEndsWith (pathJoin (pathJoin "usr/share/doc" c.name) "changelog") "/" = false :=
      pathJoin_no_trailing_slash _ "changelog" (by decide) (by decide)
    rcases asset_new_ok lf _ 0o644 hsl with ⟨a, ha, _, _⟩
    rw [ha]
    exact ⟨a, rfl⟩

theorem except_isOk_iff {ε α : Type} (e : Except ε α) : e.isOk = true ↔ ∃ x, e = .ok x := by
  cases e with
  | ok x => simp [Except.isOk, Except.toBool]
  | error e => simp [Except.isOk, Except.toBool]

/-- Inverting the append tail of `Cargo::to_config`: a successful run
appends exactly the copyright asset and, when a changelog is declared, the
changelog asset, after the resolved assets. -/
theorem to_config_tail_inv (c0 : Config) (chlog : Option String) (warnings : List String)
    (cfg : Config) (w : List String)
    (h : (c0.add_copyright_asset >>= fun c2 =>
          c2.add_changelog_asset chlog >>= fun c3 =>
          pure (c3, warnings)) = Except.ok (cfg, w)) :
    w = warnings ∧ cfg.description = c0.description
    ∧ ∃ rest : List Asset, cfg.assets = c0.assets ++ rest
      ∧ rest.length = (if chlog.isSome then 2 else 1) := by
  rcases add_copyright_asset_ok c0 with ⟨a1, ha1⟩
  rw [ha1, exceptBind_ok] at h
  cases hch : chlog with
  | none =>
    rw [hch] at h
    rw [(add_changelog_asset_ok _ none).1 rfl, exceptBind_ok] at h
    have h2 : Except.ok (({ c0 with assets := c0.assets ++ [a1] } : Config), warnings)
        = Except.ok (cfg, w) := h
    have h3 := Except.ok.inj h2
    have hcfg : ({ c0 with assets := c0.assets ++ [a1] } : Config) = cfg := congrArg Prod.fst h3
    have hw : warnings = w := congrArg Prod.snd h3
    refine ⟨hw.symm, ?_, [a1], ?_, by simp⟩
    · rw [← hcfg]
    · rw [← hcfg]
  | some lf =>
    rw [hch] at h
    rcases (add_changelog_asset_ok ({ c0 with assets := c0.assets ++ [a1] } : Config)
      (some lf)).2 lf rfl with ⟨a2, ha2⟩
    rw [ha2, exceptBind_ok] at h
    have h2 : Except.ok (({ c0 with assets := (c0.assets ++ [a1]) ++ [a2] } : Config), warnings)
        = Except.ok (cfg, w) := h
    have h3 := Except.ok.inj h2
    have hcfg : ({ c0 with assets := (c0.assets ++ [a1]) ++ [a2] } : Config) = cfg :=
      congrArg Prod.fst h3
    have hw : warnings = w := congrArg Prod.snd h3
    refine ⟨hw.symm, ?_, [a1, a2], ?_, by simp⟩
    · rw [← hcfg]
    · rw [← hcfg]
      simp

/-- Inverting a successful `Cargo::to_config` run: the resolved asset list
was computed by `take_assets`, passed the non-emptiness check, the
warnings are exactly `check_config`'s, the description got its fallback,
and the final asset list is the resolved one plus the appended
copyright/changelog assets. -/
theorem to_config_ok_inv (self : Cargo) (env : Env) (root_targets : List CargoMetadataTarget)
    (wr td0 : String) (tgt : Option String) (cfg : Config) (w : List String)
    (h : Cargo.to_config self env root_targets wr td0 tgt = .ok (cfg, w)) :
    ∃ as, Cargo.take_assets self env (adjustedTargetDir td0 tgt) (Cargo.deb_of self).assets
        root_targets self.package.readme = .ok as
      ∧ as.isEmpty = false
      ∧ w = Cargo.check_config self env self.package.readme (Cargo.deb_of self)
      ∧ cfg.description = self.package.description.getD
          (self.package.name ++ " -- autogenerated Rust project")
      ∧ ∃ rest : List Asset, cfg.assets = as ++ rest
        ∧ rest.length = (if (Cargo.deb_of self).changelog.isSome then 2 else 1) := by
  unfold Cargo.to_config at h
  try simp only [] at h
  cases h1 : self.license_file_fn (Cargo.deb_of self).license_file with
  | error e => rw [h1, exceptBind_err] at h; cases h
  | ok lfp =>
    rw [h1, exceptBind_ok] at h
    try simp only [] at h
    cases h2 : copyrightOf self.package (Cargo.deb_of self) with
    | error e => rw [h2, exceptBind_err] at h; cases h
    | ok cp =>
      rw [h2, exceptBind_ok] at h
      try simp only [] at h
      cases h3 : Cargo.extended_description self env (Cargo.deb_of self).extended_description
          self.package.readme with
      | error e => rw [h3, exceptBind_err] at h; cases h
      | ok ed =>
        rw [h3, exceptBind_ok] at h
        try simp only [] at h
        cases h4 : maintainerOf self.package (Cargo.deb_of self) with
        | error e => rw [h4, exceptBind_err] at h; cases h
        | ok mt =>
          rw [h4, exceptBind_ok] at h
          try simp only [] at h
          cases h5 : Cargo.take_assets self env (adjustedTargetDir td0 tgt)
              (Cargo.deb_of self).assets root_targets self.package.readme with
          | error e => rw [h5, exceptBind_err] at h; cases h
          | ok as =>
            rw [h5, exceptBind_ok] at h
            try simp only [] at h
            refine ⟨as, rfl, ?_⟩
            cases hemp : as.isEmpty with
            | true =>
              rw [hemp] at h
              simp only [if_true] at h
              cases h
            | false =>
              rw [hemp] at h
              simp only [Bool.false_eq_true, if_false] at h
              have htail := to_config_tail_inv _ _ _ _ _ h
              rcases htail with ⟨hw, hdesc, rest, hassets, hlen⟩
              refine ⟨rfl, hw, ?_, rest, ?_, hlen⟩
              · rw [hdesc]
              · rw [hassets]
                simp

/-! ### Concrete fixtures for witnesses -/

/-- An environment with an empty filesystem and a failing resolver. -/
def envNoFs : Env :=
  { glob := fun _ => .ok [], isDir := fun _ => false, readFile := fun _ => .error "io error",
    pathExists := fun _ => false, resolve := fun _ _ => .error "resolve error",
    hostArch := "x86_64" }

/-- A minimal package with no description and no packaging overrides. -/
def cargoNoDesc : Cargo :=
  { package :=
    { name := "foo", authors := some ["Ann <ann@example.com>"], license := some "MIT",
      license_file := none, homepage := none, documentation := none, repository := none,
      version := "1.0.0", description := none, readme := none, metadata := none },
    profile := none }

/-- One binary build target named `foo`. -/
def targetsFoo : List CargoMetadataTarget :=
  [{ name := "foo", kind := ["bin"], crate_types := ["bin"] }]

/-- The Config produced for `cargoNoDesc` over the empty filesystem. -/
def cfgNoDesc : Config :=
  { workspace_root := "ws", target := none, target_dir := "target", name := "foo",
    license := some "MIT", license_file := none, license_file_skip_lines := 0,
    copyright := "Ann <ann@example.com>", version := "1.0.0", homepage := none,
    documentation := none, repository := none,
    description := "foo -- autogenerated Rust project", extended_description := none,
    maintainer := "Ann <ann@example.com>", depends := "$auto", «section» := none,
    priority := "optional", conflicts := none, breaks := none, replaces := none,
    provides := none, architecture := "amd64", conf_files := none,
    assets := [{ source_file := "target/release/foo", target_path := "usr/bin/foo", chmod := 493 },
               { source_file := "target/debian/copyright",
                 target_path := "usr/share/doc/foo/copyright", chmod := 420 }],
    maintainer_scripts := none, features := [], default_features := true, strip := true }

/-- Like `cargoNoDesc` but with an explicit empty asset-rule list. -/
def cargoEmptyAssets : Cargo :=
  { package :=
    { name := "foo", authors := some ["Ann <ann@example.com>"], license := some "MIT",
      license_file := none, homepage := none, documentation := none, repository := none,
      version := "1.0.0", description := none, readme := none,
      metadata := some ({ deb := some ({ CargoDeb.default with assets := some [] }) }) },
    profile := none }

/-- Like `cargoNoDesc` but with one asset rule whose permission string is
not octal. -/
def cargoBadChmod : Cargo :=
  { package :=
    { name := "foo", authors := some ["Ann <ann@example.com>"], license := some "MIT",
      license_file := none, homepage := none, documentation := none, repository := none,
      version := "1.0.0", description := none, readme := none,
      metadata :=
        some ({ deb := some ({ CargoDeb.default with assets := some [["a", "b", "75a"]] }) }) },
    profile := none }

/-! ### C1: empty resolved asset list is fatal, before the appends -/

/-- C1: config synthesis fails fatally whenever the asset list produced
by glob expansion / implied-asset synthesis is empty: no Config is
returned. The check runs before the synthesized copyright and changelog
assets are appended: a successful run's final asset list is the
(necessarily non-empty) resolved list followed by the one or two appended
assets, so those appended assets can never satisfy the check. -/
theorem spec_empty_assets_fatal (self : Cargo) (env : Env)
    (root_targets : List CargoMetadataTarget) (wr td0 : String) (tgt : Option String)
    (as : List Asset)
    (h : Cargo.take_assets self env (adjustedTargetDir td0 tgt) (Cargo.deb_of self).assets
      root_targets self.package.readme = .ok as) :
    (as = [] → (Cargo.to_config self env root_targets wr td0 tgt).isOk = false)
    ∧ (∀ cfg w, Cargo.to_config self env root_targets wr td0 tgt = .ok (cfg, w) →
        as ≠ [] ∧ ∃ rest : List Asset, cfg.assets = as ++ rest
          ∧ rest.length = (if (Cargo.deb_of self).changelog.isSome then 2 else 1)) := by
  constructor
  · intro hnil
    rw [Bool.eq_false_iff]
    intro hcon
    rcases (except_isOk_iff _).1 hcon with ⟨p, hok⟩
    rcases to_config_ok_inv self env root_targets wr td0 tgt p.1 p.2
      (by rw [← hok]) with ⟨as2, h5, hemp, _⟩
    rw [h] at h5
    have has : as = as2 := Except.ok.inj h5
    rw [← has, hnil] at hemp
    cases hemp
  · intro cfg w hok
    rcases to_config_ok_inv self env root_targets wr td0 tgt cfg w hok
      with ⟨as2, h5, hemp, _, _, rest, hassets, hlen⟩
    rw [h] at h5
    have has : as = as2 := Except.ok.inj h5
    subst has
    refine ⟨?_, rest, hassets, hlen⟩
    intro hnil
    rw [hnil] at hemp
    cases hemp

/-- Witness for C1: an explicit empty asset-rule list resolves to zero
assets and synthesis returns no Config. -/
theorem spec_empty_assets_fatal_witness :
    (Cargo.to_config cargoEmptyAssets envNoFs targetsFoo "ws" "target" none).isOk = false :=
  (spec_empty_assets_fatal cargoEmptyAssets envNoFs targetsFoo "ws" "target" none []
    (by decide)).1 rfl

/-! ### C9: permission strings parse as base-8, malformed is fatal -/

/-- A rule whose permission string is `75a` fails with the chmod parse
error, whatever its source and destination. -/
theorem assetRule_bad_chmod (env : Env) (td src dst : String) :
    assetRule env td [src, dst, "75a"] = .error "unable to parse chmod argument" := rfl

/-- If some rule in the explicit rule list fails, the whole rule loop of
`take_assets` fails. -/
theorem foldRules_err (env : Env) (td : String) (rules : List (List String)) :
    ∀ acc : List Asset, (∃ v ∈ rules, (assetRule env td v).isOk = false) →
    (rules.foldlM (fun acc v => do
      let as ← assetRule env td v
      pure (acc ++ as)) acc).isOk = false := by
  induction rules with
  | nil =>
    intro acc h
    rcases h with ⟨v, hv, _⟩
    cases hv
  | cons r rest ih =>
    intro acc h
    rw [List.foldlM_cons _ _ _ _]
    cases hr : assetRule env td r with
    | error e => rfl
    | ok as2 =>
      show (rest.foldlM (fun acc v => do
        let as ← assetRule env td v
        pure (acc ++ as)) (acc ++ as2)).isOk = false
      apply ih
      rcases h with ⟨v, hv, hbad⟩
      rcases List.mem_cons.1 hv with hv1 | hv2
      · rw [hv1, hr] at hbad
        cases hbad
      · exact ⟨v, hv2, hbad⟩

/-- With explicit rules, a failing rule makes `take_assets` fail. -/
theorem take_assets_explicit_err (self : Cargo) (env : Env) (td : String)
    (rules : List (List String)) (targets : List CargoMetadataTarget) (readme : Option String)
    (h : ∃ v ∈ rules, (assetRule env td v).isOk = false) :
    (Cargo.take_assets self env td (some rules) targets readme).isOk = false := by
  unfold Cargo.take_assets
  exact foldRules_err env td rules [] h

/-- C9: asset-rule permission strings parse as base-8 — `"644"` parses to
decimal 420, `"75a"` is a parse error — and a rule list containing a rule
with permission string `"75a"` makes `take_assets`, and with it the whole
synthesis, fail: no Config is returned. -/
theorem spec_chmod_octal_parse (env : Env) (self : Cargo)
    (root_targets : List CargoMetadataTarget) (wr td0 : String) (tgt : Option String)
    (rules : List (List String)) (src dst : String)
    (h1 : (Cargo.deb_of self).assets = some rules)
    (h2 : [src, dst, "75a"] ∈ rules) :
    parseOctal "644" = some 420
    ∧ parseOctal "75a" = none
    ∧ (Cargo.take_assets self env (adjustedTargetDir td0 tgt) (Cargo.deb_of self).assets
        root_targets self.package.readme).isOk = false
    ∧ (Cargo.to_config self env root_targets wr td0 tgt).isOk = false := by
  have hta : (Cargo.take_assets self env (adjustedTargetDir td0 tgt) (Cargo.deb_of self).assets
      root_targets self.package.readme).isOk = false := by
    rw [h1]
    refine take_assets_explicit_err self env _ rules root_targets self.package.readme
      ⟨[src, dst, "75a"], h2, ?_⟩
    rw [assetRule_bad_chmod]
    rfl
  refine ⟨by decide, by decide, hta, ?_⟩
  rw [Bool.eq_false_iff]
  intro hcon
  rcases (except_isOk_iff _).1 hcon with ⟨p, hok⟩
  rcases to_config_ok_inv self env root_targets wr td0 tgt p.1 p.2 (by rw [← hok])
    with ⟨as, h5, _⟩
  rw [h5] at hta
  cases hta

/-- Witness for C9 on a one-rule list with permission string `75a`. -/
theorem spec_chmod_octal_parse_witness :
    parseOctal "644" = some 420
    ∧ parseOctal "75a" = none
    ∧ (Cargo.take_assets cargoBadChmod envNoFs (adjustedTargetDir "target" none)
        (Cargo.deb_of cargoBadChmod).assets targetsFoo cargoBadChmod.package.readme).isOk = false
    ∧ (Cargo.to_config cargoBadChmod envNoFs targetsFoo "ws" "target" none).isOk = false :=
  spec_chmod_octal_parse envNoFs cargoBadChmod targetsFoo "ws" "target" none
    [["a", "b", "75a"]] "a" "b" rfl (by decide)

/-! ### C10: missing description is non-fatal and defaulted -/

/-- Warning list `check_config` always reports a missing description. -/
theorem check_config_missing_description (self : Cargo) (env : Env)
    (readme : Option String) (deb : CargoDeb) (hd : self.package.description = none) :
    "description field is missing in Cargo.toml" ∈ Cargo.check_config self env readme deb := by
  unfold Cargo.check_config
  rw [hd]
  simp only [Option.isNone_none, if_true, List.nil_append]
  have base : "description field is missing in Cargo.toml"
      ∈ (if self.package.license.isNone = true
         then ["description field is missing in Cargo.toml"]
            ++ ["license field is missing in Cargo.toml"]
         else ["description field is missing in Cargo.toml"]) := by
    by_cases hl : self.package.license.isNone = true
    · rw [if_pos hl]; simp
    · rw [if_neg hl]; simp
  cases readme with
  | some r =>
    simp only []
    by_cases hc : (deb.extended_description.isNone
        && (strEndsWith r ".md" || strEndsWith r ".markdown")) = true
    · rw [if_pos hc]
      exact List.mem_append_left _ base
    · rw [if_neg hc]
      exact base
  | none =>
    simp only []
    cases hf : ["README.md", "README.txt", "README"].find? (fun p => env.pathExists p) with
    | some p =>
      simp only []
      exact List.mem_append_left _ base
    | none =>
      simp only []
      exact base

/-- C10: a missing description field is non-fatal: `check_config`
accumulates the advisory warning, and any successful synthesis sets the
Config description to `"<package name> -- autogenerated Rust project"`
with that warning in the returned warning list. -/
theorem spec_missing_description_defaulted (self : Cargo) (env : Env)
    (root_targets : List CargoMetadataTarget) (wr td0 : String) (tgt : Option String)
    (cfg : Config) (w : List String)
    (hd : self.package.description = none)
    (h : Cargo.to_config self env root_targets wr td0 tgt = .ok (cfg, w)) :
    cfg.description = self.package.name ++ " -- autogenerated Rust project"
    ∧ "description field is missing in Cargo.toml" ∈ w := by
  rcases to_config_ok_inv self env root_targets wr td0 tgt cfg w h
    with ⟨as, _, _, hw, hdesc, _⟩
  constructor
  · rw [hdesc, hd]
    rfl
  · rw [hw]
    exact check_config_missing_description self env self.package.readme (Cargo.deb_of self) hd

/-- Witness for C10: a package without a description synthesizes
successfully, with the autogenerated description and the advisory
warning. -/
theorem spec_missing_description_defaulted_witness :
    cfgNoDesc.description = "foo -- autogenerated Rust project"
    ∧ "description field is missing in Cargo.toml"
      ∈ ["description field is missing in Cargo.toml"] :=
  spec_missing_description_defaulted cargoNoDesc envNoFs targetsFoo "ws" "target" none
    cfgNoDesc ["description field is missing in Cargo.toml"] rfl (by decide)

/-! ### C7: binary-executable classification -/

/-- Having some bit of the octal-111 mask set is exactly having one of
the three execute permission bits (owner, group, other) set. -/
theorem land_0o111_ne_zero (n : Nat) :
    n &&& 0o111 ≠ 0 ↔ (n.testBit 0 ∨ n.testBit 3 ∨ n.testBit 6) := by
  constructor
  · intro h
    by_contra hno
    apply h
    apply Nat.eq_of_testBit_eq
    intro i
    rw [Nat.testBit_land, Nat.zero_testBit]
    have h0 : n.testBit 0 = false := by
      cases hh : n.testBit 0
      · rfl
      · exact absurd (Or.inl hh) hno
    have h3 : n.testBit 3 = false := by
      cases hh : n.testBit 3
      · rfl
      · exact absurd (Or.inr (Or.inl hh)) hno
    have h6 : n.testBit 6 = false := by
      cases hh : n.testBit 6
      · rfl
      · exact absurd (Or.inr (Or.inr hh)) hno
    by_cases hi : i < 7
    · interval_cases i
      · rw [h0, Bool.false_and]
      · rw [show (0o111 : Nat).testBit 1 = false from by decide, Bool.and_false]
      · rw [show (0o111 : Nat).testBit 2 = false from by decide, Bool.and_false]
      · rw [h3, Bool.false_and]
      · rw [show (0o111 : Nat).testBit 4 = false from by decide, Bool.and_false]
      · rw [show (0o111 : Nat).testBit 5 = false from by decide, Bool.and_false]
      · rw [h6, Bool.false_and]
    · have h73 : (0o111 : Nat).testBit i = false := by
        apply Nat.testBit_lt_two_pow
        calc (0o111 : Nat) < 2 ^ 7 := by norm_num
          _ ≤ 2 ^ i := Nat.pow_le_pow_right (by norm_num) (by omega)
      rw [h73, Bool.and_false]
  · intro h hz
    have hbit : ∀ k, n.testBit k = true → (0o111 : Nat).testBit k = true → False := by
      intro k hk h73
      have : (n &&& 0o111).testBit k = true := by
        rw [Nat.testBit_land, hk, h73]
        rfl
      rw [hz, Nat.zero_testBit] at this
      cases this
    rcases h with hk | hk | hk
    · exact hbit 0 hk (by decide)
    · exact hbit 3 hk (by decide)
    · exact hbit 6 hk (by decide)

/-- C7: an Asset is classified as a binary executable exactly when its
source, resolved against the workspace root, lies under the release
directory prefix and at least one execute bit (octal 111 mask) is set;
and `Config::binaries` — over which automatic dependency resolution
runs — is exactly the filter of the assets by that predicate, with the
release prefix `<target dir>/release` (the target-triple segment of the
target dir first being stripped when cross-compiling). -/
theorem spec_binary_executable_classification (c : Config) (bs : List String)
    (h : c.binaries = .ok bs) :
    (∀ (a : Asset) (wr rp : String),
      a.is_binary_executable wr rp = true ↔
        (pathStartsWith (pathJoin wr a.source_file) rp = true
         ∧ (a.chmod.testBit 0 ∨ a.chmod.testBit 3 ∨ a.chmod.testBit 6)))
    ∧ (∃ tdir, (match c.target with
        | some _ => pathParent c.target_dir = some tdir
        | none => tdir = c.target_dir)
      ∧ bs = (c.assets.filter (fun a =>
          a.is_binary_executable c.workspace_root (pathJoin tdir "release"))).map
          (fun a => a.source_file))
    ∧ (∀ (env : Env) (acc : List String × List String),
        depWordStep env c acc "$auto" = .ok (bs.foldl (autoStep env c.architecture) acc)) := by
  refine ⟨?_, ?_, ?_⟩
  · intro a wr rp
    unfold Asset.is_binary_executable
    rw [Bool.and_eq_true]
    constructor
    · rintro ⟨h1, h2⟩
      exact ⟨h1, (land_0o111_ne_zero a.chmod).1 (by simpa [bne_iff_ne] using h2)⟩
    · rintro ⟨h1, h2⟩
      refine ⟨h1, ?_⟩
      have := (land_0o111_ne_zero a.chmod).2 h2
      simpa [bne_iff_ne] using this
  · unfold Config.binaries at h
    cases hct : c.target with
    | none =>
      rw [hct] at h
      have h2 : Except.ok ((c.assets.filter (fun a =>
          a.is_binary_executable c.workspace_root (pathJoin c.target_dir "release"))).map
          (fun a => a.source_file)) = Except.ok bs := h
      exact ⟨c.target_dir, rfl, (Except.ok.inj h2).symm⟩
    | some t =>
      rw [hct] at h
      cases hp : pathParent c.target_dir with
      | none =>
        rw [hp] at h
        cases h
      | some p =>
        rw [hp] at h
        have h2 : Except.ok ((c.assets.filter (fun a =>
            a.is_binary_executable c.workspace_root (pathJoin p "release"))).map
            (fun a => a.source_file)) = Except.ok bs := h
        exact ⟨p, rfl, (Except.ok.inj h2).symm⟩
  · intro env acc
    unfold depWordStep
    have ht : strTrim "$auto" = "$auto" := rfl
    rw [ht, if_pos rfl, h, exceptBind_ok]
    rfl

/-- Witness for C7 on a config with one classified binary. -/
def cfgBin : Config :=
  { cfgNoDesc with workspace_root := "/w", target_dir := "/w/target" }

/-- Witness for C7: the predicate's two-sided characterization at the
classified binary asset of `cfgBin`. -/
theorem spec_binary_executable_classification_witness :
    (Asset.mk "target/release/foo" "usr/bin/foo" 493).is_binary_executable
      "/w" "/w/target/release" = true
    ↔ (pathStartsWith (pathJoin "/w" "target/release/foo") "/w/target/release" = true
       ∧ ((493 : Nat).testBit 0 ∨ (493 : Nat).testBit 3 ∨ (493 : Nat).testBit 6)) :=
  (spec_binary_executable_classification cfgBin ["target/release/foo"] (by decide)).1
    (Asset.mk "target/release/foo" "usr/bin/foo" 493) "/w" "/w/target/release"

/-! ### C4 / C5: dependency aggregation -/

theorem mem_insertSet (l : List String) (x y : String) :
    y ∈ insertSet l x ↔ y ∈ l ∨ y = x := by
  unfold insertSet
  by_cases h : x ∈ l
  · rw [if_pos h]
    constructor
    · exact Or.inl
    · rintro (hy | rfl)
      · exact hy
      · exact h
  · rw [if_neg h]
    simp

theorem insertSet_nodup (l : List String) (x : String) (h : l.Nodup) :
    (insertSet l x).Nodup := by
  unfold insertSet
  by_cases hx : x ∈ l
  · rw [if_pos hx]; exact h
  · rw [if_neg hx]
    simp [List.nodup_append, h, hx]

/-- Facts about folding `insertSet` over a resolved dependency list:
old members stay, all new names enter, no duplicates are created, and
nothing else enters. -/
theorem insFold_inv (ds : List String) : ∀ l : List String,
    (∀ d ∈ l, d ∈ ds.foldl insertSet l)
    ∧ (∀ d ∈ ds, d ∈ ds.foldl insertSet l)
    ∧ (l.Nodup → (ds.foldl insertSet l).Nodup)
    ∧ (∀ d ∈ ds.foldl insertSet l, d ∈ l ∨ d ∈ ds) := by
  induction ds with
  | nil =>
    intro l
    exact ⟨fun d hd => hd, fun d hd => absurd hd (List.not_mem_nil d),
      fun h => h, fun d hd => Or.inl hd⟩
  | cons x ds ih =>
    intro l
    rw [List.foldl_cons]
    rcases ih (insertSet l x) with ⟨imono, iall, inodup, icompl⟩
    refine ⟨?_, ?_, ?_, ?_⟩
    · intro d hd
      exact imono d ((mem_insertSet l x d).2 (Or.inl hd))
    · intro d hd
      rcases List.mem_cons.1 hd with hd1 | hd2
      · subst hd1
        exact imono d ((mem_insertSet l d d).2 (Or.inr rfl))
      · exact iall d hd2
    · intro hn
      exact inodup (insertSet_nodup l x hn)
    · intro d hd
      rcases icompl d hd with hd2 | hd2
      · rcases (mem_insertSet l x d).1 hd2 with hd3 | hd4
        · exact Or.inl hd3
        · subst hd4
          exact Or.inr (List.mem_cons_self d ds)
      · exact Or.inr (List.mem_cons_of_mem x hd2)

/-- Facts about the `$auto` fold over the classified binaries: the
dependency set grows monotonically, warnings grow monotonically, every
failing binary's warning is recorded, every successfully resolved name is
included, no duplicates are created, and every member either was present
or came from some successful resolution. -/
theorem autoFold_inv (env : Env) (arch : String) (bs : List String) :
    ∀ acc : List String × List String,
    (∀ d ∈ acc.1, d ∈ (bs.foldl (autoStep env arch) acc).1)
    ∧ (∀ m ∈ acc.2, m ∈ (bs.foldl (autoStep env arch) acc).2)
    ∧ (∀ b ∈ bs,
        (∀ e, env.resolve b arch = .error e → warnMsg e b ∈ (bs.foldl (autoStep env arch) acc).2)
        ∧ (∀ ds, env.resolve b arch = .ok ds → ∀ d ∈ ds, d ∈ (bs.foldl (autoStep env arch) acc).1))
    ∧ (acc.1.Nodup → (bs.foldl (autoStep env arch) acc).1.Nodup)
    ∧ (∀ d ∈ (bs.foldl (autoStep env arch) acc).1, d ∈ acc.1
        ∨ ∃ b ∈ bs, ∃ ds, env.resolve b arch = .ok ds ∧ d ∈ ds) := by
  induction bs with
  | nil =>
    intro acc
    exact ⟨fun d hd => hd, fun m hm => hm,
      fun b hb => absurd hb (List.not_mem_nil b), fun h => h, fun d hd => Or.inl hd⟩
  | cons b bs ih =>
    intro acc
    rw [List.foldl_cons]
    rcases ih (autoStep env arch acc b) with ⟨imono, iwmono, iall, inodup, icompl⟩
    have step1 : ∀ d ∈ acc.1, d ∈ (autoStep env arch acc b).1 := by
      intro d hd
      unfold autoStep
      cases hr : env.resolve b arch with
      | ok ds => exact (insFold_inv ds acc.1).1 d hd
      | error e => exact hd
    have stepw : ∀ m ∈ acc.2, m ∈ (autoStep env arch acc b).2 := by
      intro m hm
      unfold autoStep
      cases hr : env.resolve b arch with
      | ok ds => exact hm
      | error e => exact List.mem_append_left _ hm
    have stepn : acc.1.Nodup → (autoStep env arch acc b).1.Nodup := by
      intro hn
      unfold autoStep
      cases hr : env.resolve b arch with
      | ok ds => exact (insFold_inv ds acc.1).2.2.1 hn
      | error e => exact hn
    have stepc : ∀ d ∈ (autoStep env arch acc b).1, d ∈ acc.1
        ∨ ∃ ds, env.resolve b arch = .ok ds ∧ d ∈ ds := by
      intro d hd
      unfold autoStep at hd
      cases hr : env.resolve b arch with
      | ok ds =>
        rw [hr] at hd
        rcases (insFold_inv ds acc.1).2.2.2 d hd with h1 | h1
        · exact Or.inl h1
        · exact Or.inr ⟨ds, rfl, h1⟩
      | error e =>
        rw [hr] at hd
        exact Or.inl hd
    refine ⟨?_, ?_, ?_, ?_, ?_⟩
    · intro d hd
      exact imono d (step1 d hd)
    · intro m hm
      exact iwmono m (stepw m hm)
    · intro b2 hb2
      rcases List.mem_cons.1 hb2 with rfl | hb3
      · constructor
        · intro e he
          apply iwmono
          unfold autoStep
          rw [he]
          exact List.mem_append_right _ (List.mem_singleton.2 rfl)
        · intro ds hds d hd
          apply imono
          unfold autoStep
          rw [hds]
          exact (insFold_inv ds acc.1).2.1 d hd
      · exact iall b2 hb3
    · intro hn
      exact inodup (stepn hn)
    · intro d hd
      rcases icompl d hd with h1 | h1
      · rcases stepc d h1 with h2 | ⟨ds, hds, hd2⟩
        · exact Or.inl h2
        · exact Or.inr ⟨b, List.mem_cons_self b bs, ds, hds, hd2⟩
      · rcases h1 with ⟨b2, hb2, ds, hds, hd2⟩
        exact Or.inr ⟨b2, List.mem_cons_of_mem b hb2, ds, hds, hd2⟩

/-- With the binaries computable, the dependency word loop always
succeeds. -/
theorem depWords_ok (env : Env) (c : Config) (bs : List String) (hb : c.binaries = .ok bs) :
    ∀ (ws : List String) (acc : List String × List String),
    ∃ r, depWords env c ws acc = .ok r := by
  intro ws
  induction ws with
  | nil => intro acc; exact ⟨acc, rfl⟩
  | cons w ws ih =>
    intro acc
    have hstep : ∃ acc2, depWordStep env c acc w = .ok acc2 := by
      unfold depWordStep
      by_cases hw : strTrim w = "$auto"
      · rw [if_pos hw, hb, exceptBind_ok]
        exact ⟨_, rfl⟩
      · rw [if_neg hw]
        exact ⟨_, rfl⟩
    rcases hstep with ⟨acc2, hacc2⟩
    rcases ih acc2 with ⟨r, hr⟩
    refine ⟨r, ?_⟩
    unfold depWords
    rw [hacc2]
    exact hr

/-- Invariants of the dependency word loop: the set and the warnings grow
monotonically; whenever some word trims to `$auto`, every failing
binary's warning is recorded and every successfully resolved name is
included; no duplicates are created; and every member of the final set is
either a literal (non-`$auto`) trimmed word or a successfully resolved
name. -/
theorem depWords_inv (env : Env) (c : Config) (bs : List String) (hb : c.binaries = .ok bs) :
    ∀ (ws : List String) (acc : List String × List String) (l w : List String),
    depWords env c ws acc = .ok (l, w) →
    (∀ d ∈ acc.1, d ∈ l)
    ∧ (∀ m ∈ acc.2, m ∈ w)
    ∧ (∀ wd ∈ ws, strTrim wd = "$auto" →
        (∀ b ∈ bs, ∀ e, env.resolve b c.architecture = .error e → warnMsg e b ∈ w)
        ∧ (∀ b ∈ bs, ∀ ds, env.resolve b c.architecture = .ok ds → ∀ d ∈ ds, d ∈ l))
    ∧ (acc.1.Nodup → l.Nodup)
    ∧ (∀ d ∈ l, d ∈ acc.1
        ∨ (∃ wd ∈ ws, strTrim wd = d ∧ strTrim wd ≠ "$auto")
        ∨ ∃ b ∈ bs, ∃ ds, env.resolve b c.architecture = .ok ds ∧ d ∈ ds) := by
  intro ws
  induction ws with
  | nil =>
    intro acc l w h
    have hacc : acc = (l, w) := Except.ok.inj h
    subst hacc
    refine ⟨fun d hd => hd, fun m hm => hm, ?_, fun hn => hn, fun d hd => Or.inl hd⟩
    intro wd hwd
    exact absurd hwd (List.not_mem_nil wd)
  | cons wd0 ws ih =>
    intro acc l w h
    cases hstep : depWordStep env c acc wd0 with
    | error e =>
      unfold depWords at h
      rw [hstep] at h
      cases h
    | ok acc2 =>
      unfold depWords at h
      rw [hstep] at h
      rcases ih acc2 l w h with ⟨imono, iwmono, iauto, inodup, icompl⟩
      by_cases hw : strTrim wd0 = "$auto"
      · have hfold : acc2 = bs.foldl (autoStep env c.architecture) acc := by
          unfold depWordStep at hstep
          rw [if_pos hw, hb, exceptBind_ok] at hstep
          exact (Except.ok.inj hstep).symm
        rcases autoFold_inv env c.architecture bs acc with ⟨amono, awmono, aall, anodup, acompl⟩
        refine ⟨?_, ?_, ?_, ?_, ?_⟩
        · intro d hd
          exact imono d (by rw [hfold]; exact amono d hd)
        · intro m hm
          exact iwmono m (by rw [hfold]; exact awmono m hm)
        · intro wd hwd hwda
          rcases List.mem_cons.1 hwd with h1 | h1
          · constructor
            · intro b hbm e he
              apply iwmono
              rw [hfold]
              exact (aall b hbm).1 e he
            · intro b hbm ds hds d hd
              apply imono
              rw [hfold]
              exact (aall b hbm).2 ds hds d hd
          · exact iauto wd h1 hwda
        · intro hn
          exact inodup (by rw [hfold]; exact anodup hn)
        · intro d hd
          rcases icompl d hd with h1 | h1 | h1
          · rw [hfold] at h1
            rcases acompl d h1 with h2 | h2
            · exact Or.inl h2
            · exact Or.inr (Or.inr h2)
          · rcases h1 with ⟨wd, hwd, hwd2⟩
            exact Or.inr (Or.inl ⟨wd, List.mem_cons_of_mem _ hwd, hwd2⟩)
          · exact Or.inr (Or.inr h1)
      · have hacc2 : acc2 = (insertSet acc.1 (strTrim wd0), acc.2) := by
          unfold depWordStep at hstep
          rw [if_neg hw] at hstep
          exact (Except.ok.inj hstep).symm
        refine ⟨?_, ?_, ?_, ?_, ?_⟩
        · intro d hd
          apply imono
          rw [hacc2]
          exact (mem_insertSet _ _ _).2 (Or.inl hd)
        · intro m hm
          apply iwmono
          rw [hacc2]
          exact hm
        · intro wd hwd hwda
          rcases List.mem_cons.1 hwd with h1 | h1
          · exact absurd (h1 ▸ hwda) hw
          · exact iauto wd h1 hwda
        · intro hn
          apply inodup
          rw [hacc2]
          exact insertSet_nodup _ _ hn
        · intro d hd
          rcases icompl d hd with h1 | h1 | h1
          · rw [hacc2] at h1
            rcases (mem_insertSet _ _ _).1 h1 with h2 | h2
            · exact Or.inl h2
            · exact Or.inr (Or.inl ⟨wd0, List.mem_cons_self _ _, h2.symm, hw⟩)
          · rcases h1 with ⟨wd, hwd, hwd2⟩
            exact Or.inr (Or.inl ⟨wd, List.mem_cons_of_mem _ hwd, hwd2⟩)
          · exact Or.inr (Or.inr h1)

/-- C4: dependency aggregation over the comma-separated directive returns
a deduplicated set joined into one string: `"$auto"` with no classified
binaries aggregates to the empty string, and `"libc6, $auto"` produces a
duplicate-free set containing `libc6` and every successfully resolved
name (each therefore exactly once, however often the resolver repeats
it), joined with `", "`. -/
theorem spec_dependency_aggregation (env : Env) (c : Config) (bs : List String)
    (hb : c.binaries = .ok bs) :
    (c.depends = "$auto" → bs = [] → Config.get_dependencies env c = .ok "")
    ∧ (c.depends = "libc6, $auto" →
        ∃ l w, depCollect env c = .ok (l, w)
          ∧ Config.get_dependencies env c = .ok (joinSep ", " l)
          ∧ "libc6" ∈ l
          ∧ (∀ b ∈ bs, ∀ ds, env.resolve b c.architecture = .ok ds → ∀ d ∈ ds, d ∈ l)
          ∧ l.Nodup) := by
  constructor
  · intro hdep hbs
    subst hbs
    unfold Config.get_dependencies depCollect
    rw [hdep]
    have hsplit : splitChar ',' "$auto" = ["$auto"] := rfl
    rw [hsplit]
    have hstep : depWordStep env c ([], []) "$auto" = .ok ([], []) := by
      unfold depWordStep
      rw [show strTrim "$auto" = "$auto" from rfl, if_pos rfl, hb, exceptBind_ok]
      rfl
    have hw : depWords env c ["$auto"] ([], []) = .ok ([], []) := by
      unfold depWords
      rw [hstep]
      rfl
    rw [hw, exceptBind_ok]
    rfl
  · intro hdep
    unfold Config.get_dependencies depCollect
    rw [hdep]
    have hsplit : splitChar ',' "libc6, $auto" = ["libc6", " $auto"] := rfl
    rw [hsplit]
    have hstep1 : depWordStep env c ([], []) "libc6" = .ok (["libc6"], []) := by
      unfold depWordStep
      rw [show strTrim "libc6" = "libc6" from rfl, if_neg (by decide)]
      rfl
    have hstep2 : depWordStep env c (["libc6"], []) " $auto"
        = .ok (bs.foldl (autoStep env c.architecture) (["libc6"], [])) := by
      unfold depWordStep
      rw [show strTrim " $auto" = "$auto" from rfl, if_pos rfl, hb, exceptBind_ok]
      rfl
    have hw : depWords env c ["libc6", " $auto"] ([], [])
        = .ok (bs.foldl (autoStep env c.architecture) (["libc6"], [])) := by
      unfold depWords
      rw [hstep1]
      show depWords env c [" $auto"] (["libc6"], [])
        = .ok (bs.foldl (autoStep env c.architecture) (["libc6"], []))
      unfold depWords
      rw [hstep2]
      rfl
    rcases autoFold_inv env c.architecture bs (["libc6"], []) with ⟨amono, _, aall, anodup, _⟩
    refine ⟨(bs.foldl (autoStep env c.architecture) (["libc6"], [])).1,
      (bs.foldl (autoStep env c.architecture) (["libc6"], [])).2, ?_, ?_, ?_, ?_, ?_⟩
    · rw [hw]
    · rw [hw, exceptBind_ok]
      rfl
    · exact amono "libc6" (List.mem_singleton.2 rfl)
    · intro b hbm ds hds d hd
      exact (aall b hbm).2 ds hds d hd
    · exact anodup (List.nodup_singleton "libc6")

/-- Variant of `cfgNoDesc` with no assets: nothing is classified as a binary. -/
def cfgAutoNoBin : Config := { cfgNoDesc with assets := [] }

/-- Witness for C4: `"$auto"` with no classified binaries yields the
empty dependency string. -/
theorem spec_dependency_aggregation_witness :
    Config.get_dependencies envNoFs cfgAutoNoBin = .ok "" :=
  (spec_dependency_aggregation envNoFs cfgAutoNoBin [] (by decide)).1 rfl rfl

/-- C5: a resolver failure for one binary never aborts aggregation:
`get_dependencies` still succeeds; for every binary whose resolution
fails the advisory warning naming it is emitted; every other binary's
successfully resolved names are all included; and the failing binary
contributes nothing — every member of the final set is a literal
directive word or a successfully resolved name. -/
theorem spec_resolver_failure_fail_soft (env : Env) (c : Config) (bs : List String)
    (hb : c.binaries = .ok bs)
    (hauto : "$auto" ∈ (splitChar ',' c.depends).map strTrim) :
    (∃ r, Config.get_dependencies env c = .ok r)
    ∧ (∀ l w, depCollect env c = .ok (l, w) →
        (∀ b ∈ bs, ∀ e, env.resolve b c.architecture = .error e → warnMsg e b ∈ w)
        ∧ (∀ b ∈ bs, ∀ ds, env.resolve b c.architecture = .ok ds → ∀ d ∈ ds, d ∈ l)
        ∧ (∀ d ∈ l, (∃ wd ∈ splitChar ',' c.depends, strTrim wd = d ∧ strTrim wd ≠ "$auto")
            ∨ ∃ b ∈ bs, ∃ ds, env.resolve b c.architecture = .ok ds ∧ d ∈ ds)) := by
  constructor
  · rcases depWords_ok env c bs hb (splitChar ',' c.depends) ([], []) with ⟨r, hr⟩
    refine ⟨joinSep ", " r.1, ?_⟩
    unfold Config.get_dependencies depCollect
    rw [hr, exceptBind_ok]
    rfl
  · intro l w h
    have h2 : depWords env c (splitChar ',' c.depends) ([], []) = .ok (l, w) := h
    rcases List.mem_map.1 hauto with ⟨wd, hwd, hwdt⟩
    rcases depWords_inv env c bs hb (splitChar ',' c.depends) ([], []) l w h2
      with ⟨_, _, iauto, _, icompl⟩
    rcases iauto wd hwd hwdt with ⟨hwarn, hincl⟩
    refine ⟨hwarn, hincl, ?_⟩
    intro d hd
    rcases icompl d hd with h1 | h1 | h1
    · exact absurd h1 (List.not_mem_nil d)
    · exact Or.inl h1
    · exact Or.inr h1

/-- Witness for C5: over `cfgBin` with the always-failing resolver, the
aggregation records the warning naming the failing binary. -/
theorem spec_resolver_failure_fail_soft_witness :
    warnMsg "resolve error" "target/release/foo"
      ∈ [warnMsg "resolve error" "target/release/foo"] :=
  ((spec_resolver_failure_fail_soft envNoFs cfgBin ["target/release/foo"] (by decide)
      (by decide)).2 [] [warnMsg "resolve error" "target/release/foo"] (by decide)).1
    "target/release/foo" (List.mem_singleton.2 rfl) "resolve error" rfl

/-! ### C2 / C8: glob expansion -/

theorem not_abs_of_no_slash (c : String) (h : '/' ∉ c.data) : pathIsAbsolute c = false := by
  rw [Bool.eq_false_iff]
  intro hcon
  rcases (pathIsAbsolute_iff c).1 hcon with ⟨t, ht⟩
  exact h (by rw [ht]; exact List.mem_cons_self '/' t)

theorem no_trailing_of_no_slash (c : String) (h : '/' ∉ c.data) :
    strEndsWith c "/" = false := by
  have h2 : strEndsWith (⟨c.data⟩ : String) "/" = pathIsAbsolute ⟨c.data.reverse⟩ :=
    strEndsWith_slash_eq c.data
  have h3 : strEndsWith c "/" = pathIsAbsolute ⟨c.data.reverse⟩ := h2
  rw [h3]
  apply not_abs_of_no_slash
  intro hmem
  exact h (List.mem_reverse.1 hmem)

theorem strEndsWith_slash_append (a b : String) (hb : b ≠ "") :
    strEndsWith (a ++ b) "/" = strEndsWith b "/" := by
  have hbne : (⟨b.data.reverse⟩ : String) ≠ "" := by
    intro hcon
    rw [str_eq_empty_iff] at hcon
    simp only [List.reverse_eq_nil_iff] at hcon
    exact hb ((str_eq_empty_iff b).2 hcon)
  have e1 : strEndsWith (a ++ b) "/"
      = pathIsAbsolute ((⟨b.data.reverse⟩ : String) ++ ⟨a.data.reverse⟩) := by
    have hr : (a ++ b).data.reverse = b.data.reverse ++ a.data.reverse := by
      rw [strData_append, List.reverse_append]
    calc strEndsWith (a ++ b) "/"
        = pathIsAbsolute ⟨(a ++ b).data.reverse⟩ := strEndsWith_slash_eq (a ++ b).data
      _ = pathIsAbsolute ⟨b.data.reverse ++ a.data.reverse⟩ := by rw [hr]
      _ = pathIsAbsolute ((⟨b.data.reverse⟩ : String) ++ ⟨a.data.reverse⟩) := rfl
  rw [e1, pathIsAbsolute_append _ _ hbne, ← strEndsWith_slash_eq b.data]

theorem str_append_ne_empty (a b : String) (ha : a ≠ "") : a ++ b ≠ "" := by
  intro hcon
  rw [str_eq_empty_iff, strData_append] at hcon
  rcases List.append_eq_nil.mp hcon with ⟨h1, _⟩
  exact ha ((str_eq_empty_iff a).2 h1)

/-- A list of clean components (non-empty, separator-free) joins to a
relative path without a trailing separator. -/
theorem joinComponents_clean (cs : List String)
    (hcs : ∀ cmp ∈ cs, cmp ≠ "" ∧ '/' ∉ cmp.data) :
    pathIsAbsolute (joinComponents cs) = false
    ∧ (cs ≠ [] → joinComponents cs ≠ "" ∧ strEndsWith (joinComponents cs) "/" = false) := by
  induction cs with
  | nil => exact ⟨by decide, fun h => absurd rfl h⟩
  | cons c cs ih =>
    rcases hcs c (List.mem_cons_self c cs) with ⟨hne, hns⟩
    cases cs with
    | nil =>
      refine ⟨not_abs_of_no_slash c hns, fun _ => ⟨hne, no_trailing_of_no_slash c hns⟩⟩
    | cons c2 cs2 =>
      have htail := ih (fun cmp hm => hcs cmp (List.mem_cons_of_mem c hm))
      have htne : joinComponents (c2 :: cs2) ≠ "" :=
        (htail.2 (by simp)).1
      have htsl : strEndsWith (joinComponents (c2 :: cs2)) "/" = false :=
        (htail.2 (by simp)).2
      have hj : joinComponents (c :: c2 :: cs2) = (c ++ "/") ++ joinComponents (c2 :: cs2) := rfl
      rw [hj]
      have hcne : c ++ "/" ≠ "" := str_append_ne_empty c "/" hne
      refine ⟨?_, fun _ => ⟨str_append_ne_empty _ _ hcne, ?_⟩⟩
      · rw [pathIsAbsolute_append _ _ hcne, pathIsAbsolute_append c "/" hne]
        exact not_abs_of_no_slash c hns
      · rw [strEndsWith_slash_append _ _ htne]
        exact htsl

/-- List `takeWhile` computes the longest prefix all of whose elements satisfy
the predicate: any such prefix is a prefix of it. -/
theorem prefix_takeWhile_of_all (p : String → Bool) :
    ∀ (l ps : List String), ps <+: l → (∀ a ∈ ps, p a = true) → ps <+: l.takeWhile p := by
  intro l
  induction l with
  | nil =>
    intro ps hp _
    rw [List.prefix_nil.mp hp]
    exact List.nil_prefix
  | cons x l ih =>
    intro ps hp hall
    cases ps with
    | nil => exact List.nil_prefix
    | cons a ps2 =>
      rcases List.cons_prefix_cons.1 hp with ⟨rfl, hp2⟩
      have hpa : p a = true := hall a (List.mem_cons_self a ps2)
      rw [List.takeWhile_cons, if_pos hpa]
      exact List.cons_prefix_cons.2 ⟨rfl, ih ps2 hp2 (fun b hb => hall b (List.mem_cons_of_mem a hb))⟩

/-- Character membership in a piece of the splitter: every character of a
piece produced by `splitCharAux` came from the input list or the
accumulator. -/
theorem mem_splitCharAux_chars (c0 : Char) (l : List Char) :
    ∀ (acc : List Char) (p : List Char), p ∈ splitCharAux c0 l acc →
      ∀ x ∈ p, x ∈ l ∨ x ∈ acc := by
  induction l with
  | nil =>
    intro acc p hp x hx
    simp only [splitCharAux, List.mem_singleton] at hp
    subst hp
    exact Or.inr (List.mem_reverse.1 hx)
  | cons y ys ih =>
    intro acc p hp x hx
    rw [splitCharAux] at hp
    by_cases hy : y = c0
    · rw [if_pos hy] at hp
      rcases List.mem_cons.1 hp with hp1 | hp1
      · subst hp1
        exact Or.inr (List.mem_reverse.1 hx)
      · rcases ih [] p hp1 x hx with h | h
        · exact Or.inl (List.mem_cons_of_mem y h)
        · exact absurd h (List.not_mem_nil x)
    · rw [if_neg hy] at hp
      rcases ih (y :: acc) p hp x hx with h | h
      · exact Or.inl (List.mem_cons_of_mem y h)
      · rcases List.mem_cons.1 h with h2 | h2
        · exact Or.inl (by rw [h2]; exact List.mem_cons_self y ys)
        · exact Or.inr h2

/-- Characters of a `splitChar` piece come from the split string. -/
theorem mem_splitChar_subset (c0 : Char) (s p : String) (hp : p ∈ splitChar c0 s)
    (x : Char) (hx : x ∈ p.data) : x ∈ s.data := by
  unfold splitChar at hp
  rcases List.mem_map.1 hp with ⟨l, hl, hpl⟩
  subst hpl
  rcases mem_splitCharAux_chars c0 s.data [] l hl x hx with h | h
  · exact h
  · exact absurd h (List.not_mem_nil x)

/-- Conversely, every character other than the separator survives into some
piece of `splitCharAux`. -/
theorem splitCharAux_covers (c0 : Char) (l : List Char) :
    ∀ (acc : List Char) (x : Char), ((x ∈ l ∧ x ≠ c0) ∨ x ∈ acc) →
      ∃ p ∈ splitCharAux c0 l acc, x ∈ p := by
  induction l with
  | nil =>
    intro acc x hx
    rcases hx with ⟨hx1, _⟩ | hx1
    · exact absurd hx1 (List.not_mem_nil x)
    · refine ⟨acc.reverse, ?_, List.mem_reverse.2 hx1⟩
      simp only [splitCharAux, List.mem_singleton]
  | cons y ys ih =>
    intro acc x hx
    rw [splitCharAux]
    by_cases hy : y = c0
    · rw [if_pos hy]
      rcases hx with ⟨hx1, hne⟩ | hx1
      · rcases List.mem_cons.1 hx1 with h2 | h2
        · exact absurd (h2.trans hy) hne
        · rcases ih [] x (Or.inl ⟨h2, hne⟩) with ⟨p, hp, hxp⟩
          exact ⟨p, List.mem_cons_of_mem _ hp, hxp⟩
      · exact ⟨acc.reverse, List.mem_cons_self _ _, List.mem_reverse.2 hx1⟩
    · rw [if_neg hy]
      rcases hx with ⟨hx1, hne⟩ | hx1
      · rcases List.mem_cons.1 hx1 with h2 | h2
        · refine ih (y :: acc) x (Or.inr ?_)
          rw [h2]
          exact List.mem_cons_self y acc
        · exact ih (y :: acc) x (Or.inl ⟨h2, hne⟩)
      · exact ih (y :: acc) x (Or.inr (List.mem_cons_of_mem y hx1))

/-- A character other than the separator appears in some `splitChar`
piece. -/
theorem splitChar_covers (c0 : Char) (s : String) (x : Char)
    (hx : x ∈ s.data) (hne : x ≠ c0) :
    ∃ p ∈ splitChar c0 s, x ∈ p.data := by
  rcases splitCharAux_covers c0 s.data [] x (Or.inl ⟨hx, hne⟩) with ⟨l, hl, hxl⟩
  exact ⟨⟨l⟩, List.mem_map.2 ⟨l, hl, rfl⟩, hxl⟩

/-- Characters of a member component survive into the joined path. -/
theorem joinComponents_chars_sub (cs : List String) :
    ∀ p ∈ cs, ∀ x ∈ p.data, x ∈ (joinComponents cs).data := by
  induction cs with
  | nil =>
    intro p hp
    exact absurd hp (List.not_mem_nil p)
  | cons c cs ih =>
    intro p hp x hx
    rcases List.mem_cons.1 hp with h | h
    · subst h
      cases cs with
      | nil => exact hx
      | cons c2 cs2 =>
        have heq : joinComponents (p :: c2 :: cs2) = p ++ "/" ++ joinComponents (c2 :: cs2) := rfl
        rw [heq, strData_append, strData_append]
        exact List.mem_append_left _ (List.mem_append_left _ hx)
    · cases cs with
      | nil => exact absurd h (List.not_mem_nil p)
      | cons c2 cs2 =>
        have heq : joinComponents (c :: c2 :: cs2) = c ++ "/" ++ joinComponents (c2 :: cs2) := rfl
        rw [heq, strData_append]
        exact List.mem_append_right _ (ih p h x hx)

/-- Conversely, every character of a joined path is a separator or comes
from some component. -/
theorem joinComponents_chars_super (cs : List String) :
    ∀ x ∈ (joinComponents cs).data, x = '/' ∨ ∃ p ∈ cs, x ∈ p.data := by
  induction cs with
  | nil =>
    intro x hx
    have h0 : (joinComponents []).data = [] := rfl
    rw [h0] at hx
    exact absurd hx (List.not_mem_nil x)
  | cons c cs ih =>
    intro x hx
    cases cs with
    | nil => exact Or.inr ⟨c, List.mem_singleton.2 rfl, hx⟩
    | cons c2 cs2 =>
      have heq : joinComponents (c :: c2 :: cs2) = c ++ "/" ++ joinComponents (c2 :: cs2) := rfl
      rw [heq, strData_append, strData_append] at hx
      rcases List.mem_append.1 hx with hx1 | hx1
      · rcases List.mem_append.1 hx1 with hx2 | hx2
        · exact Or.inr ⟨c, List.mem_cons_self _ _, hx2⟩
        · left
          have hs : ("/" : String).data = ['/'] := rfl
          rw [hs] at hx2
          exact List.mem_singleton.1 hx2
      · rcases ih x hx1 with h | hpe
        · exact Or.inl h
        · rcases hpe with ⟨p, hp, hxp⟩
          exact Or.inr ⟨p, List.mem_cons_of_mem _ hp, hxp⟩

/-- Characters introduced by `pathJoin` are a separator or come from one of
the operands. -/
theorem pathJoin_chars_super (a b : String) (x : Char)
    (hx : x ∈ (pathJoin a b).data) : x = '/' ∨ x ∈ a.data ∨ x ∈ b.data := by
  unfold pathJoin at hx
  by_cases h1 : pathIsAbsolute b = true
  · rw [if_pos h1] at hx
    exact Or.inr (Or.inr hx)
  · rw [if_neg h1] at hx
    by_cases h2 : a = ""
    · rw [if_pos h2] at hx
      exact Or.inr (Or.inr hx)
    · rw [if_neg h2] at hx
      by_cases h3 : strEndsWith a "/" = true
      · rw [if_pos h3, strData_append] at hx
        rcases List.mem_append.1 hx with h | h
        · exact Or.inr (Or.inl h)
        · exact Or.inr (Or.inr h)
      · rw [if_neg h3, strData_append, strData_append] at hx
        rcases List.mem_append.1 hx with h | h
        · rcases List.mem_append.1 h with h4 | h4
          · exact Or.inr (Or.inl h4)
          · left
            have hs : ("/" : String).data = ['/'] := rfl
            rw [hs] at h4
            exact List.mem_singleton.1 h4
        · exact Or.inr (Or.inr h)

/-- Characters of the right operand survive `pathJoin`. -/
theorem pathJoin_chars_right (a b : String) (x : Char) (hx : x ∈ b.data) :
    x ∈ (pathJoin a b).data := by
  unfold pathJoin
  by_cases h1 : pathIsAbsolute b = true
  · rw [if_pos h1]
    exact hx
  · rw [if_neg h1]
    by_cases h2 : a = ""
    · rw [if_pos h2]
      exact hx
    · rw [if_neg h2]
      by_cases h3 : strEndsWith a "/" = true
      · rw [if_pos h3, strData_append]
        exact List.mem_append_right _ hx
      · rw [if_neg h3, strData_append]
        exact List.mem_append_right _ hx

/-- Unfolding of `strContains` into list membership. -/
theorem strContains_iff (s : String) (c : Char) : strContains s c = true ↔ c ∈ s.data := by
  unfold strContains
  simp [List.contains_iff_exists_mem_beq]

/-- Glob-pattern detection as character membership. -/
theorem is_glob_pattern_iff (s : String) :
    is_glob_pattern s = true
      ↔ ('*' ∈ s.data ∨ '[' ∈ s.data ∨ ']' ∈ s.data ∨ '!' ∈ s.data) := by
  unfold is_glob_pattern
  simp only [Bool.or_eq_true, strContains_iff, or_assoc]

/-- Inversion of a successful strip of the `target/release` marker. -/
theorem pathStripPrefix_target_release_inv (src rest : String)
    (hsp : pathStripPrefix src "target/release" = some rest) :
    rest = joinComponents ((fullComponents src).drop 2)
    ∧ (fullComponents "target/release").isPrefixOf (fullComponents src) = true := by
  unfold pathStripPrefix at hsp
  by_cases hIf : (fullComponents "target/release").isPrefixOf (fullComponents src) = true
  · rw [if_pos hIf] at hsp
    exact ⟨(Option.some.inj hsp).symm, hIf⟩
  · rw [if_neg hIf] at hsp
    cases hsp

/-- Decomposition of the components of a path under `target/release`. -/
theorem target_release_components_decomp (src : String)
    (hpf : (fullComponents "target/release").isPrefixOf (fullComponents src) = true) :
    fullComponents src = ["target", "release"] ++ (fullComponents src).drop 2 := by
  have hfc : fullComponents "target/release" = ["target", "release"] := by decide
  rw [hfc] at hpf
  rcases List.isPrefixOf_iff_prefix.1 hpf with ⟨t, ht⟩
  have hdrop : (fullComponents src).drop 2 = t := by
    rw [← ht]
    exact List.drop_left ["target", "release"] t
  rw [hdrop, ht]

/-- Metacharacter preservation: a glob metacharacter of the original source
survives the `target/release` rewrite into the build directory. -/
theorem effectiveSource_contains_fwd (td src rest : String) (c : Char)
    (hpf : (fullComponents "target/release").isPrefixOf (fullComponents src) = true)
    (hrest : rest = joinComponents ((fullComponents src).drop 2))
    (hc : c ∈ src.data) (hslash : c ≠ '/') (hdot : c ≠ '.')
    (htr : c ∉ ("target" : String).data) (hre : c ∉ ("release" : String).data) :
    c ∈ (path_in_build td rest).data := by
  rcases splitChar_covers '/' src c hc hslash with ⟨p, hp, hcp⟩
  have hpne : p ≠ "" := by
    intro h
    rw [h] at hcp
    have h0 : ("" : String).data = [] := rfl
    rw [h0] at hcp
    exact absurd hcp (List.not_mem_nil c)
  have hpdot : p ≠ "." := by
    intro h
    rw [h] at hcp
    have h0 : ("." : String).data = ['.'] := rfl
    rw [h0] at hcp
    exact hdot (List.mem_singleton.1 hcp)
  have hppc : p ∈ pathComponents src := by
    unfold pathComponents
    refine List.mem_filter.2 ⟨hp, ?_⟩
    simp [bne_iff_ne, hpne, hpdot]
  have hpfull : p ∈ fullComponents src := by
    unfold fullComponents
    exact List.mem_append_right _ hppc
  rw [target_release_components_decomp src hpf] at hpfull
  rcases List.mem_append.1 hpfull with hp2 | hp2
  · rcases List.mem_cons.1 hp2 with h3 | h3
    · rw [h3] at hcp
      exact absurd hcp htr
    · rw [List.mem_singleton.1 h3] at hcp
      exact absurd hcp hre
  · have hcrest : c ∈ rest.data := by
      rw [hrest]
      exact joinComponents_chars_sub _ p hp2 c hcp
    unfold path_in_build
    exact pathJoin_chars_right _ rest c hcrest

/-- The `target/release` source rewrite preserves glob-ness of the
source. -/
theorem effectiveSource_glob (td src : String) (h : is_glob_pattern src = true) :
    is_glob_pattern (effectiveSource td src) = true := by
  unfold effectiveSource
  cases hsp : pathStripPrefix src "target/release" with
  | none => exact h
  | some rest =>
    rcases pathStripPrefix_target_release_inv src rest hsp with ⟨hrest, hpf⟩
    rw [is_glob_pattern_iff] at h ⊢
    rcases h with hc | hc | hc | hc
    · exact Or.inl (effectiveSource_contains_fwd td src rest '*' hpf hrest hc
        (by decide) (by decide) (by decide) (by decide))
    · exact Or.inr (Or.inl (effectiveSource_contains_fwd td src rest '[' hpf hrest hc
        (by decide) (by decide) (by decide) (by decide)))
    · exact Or.inr (Or.inr (Or.inl (effectiveSource_contains_fwd td src rest ']' hpf hrest hc
        (by decide) (by decide) (by decide) (by decide))))
    · exact Or.inr (Or.inr (Or.inr (effectiveSource_contains_fwd td src rest '!' hpf hrest hc
        (by decide) (by decide) (by decide) (by decide))))

/-- Characters of the rewritten source other than the separator come from
the target directory, the original source, or the word `release`. -/
theorem effectiveSource_contains_bwd (td src rest : String) (c : Char)
    (hrest : rest = joinComponents ((fullComponents src).drop 2))
    (hc : c ∈ (path_in_build td rest).data) (hslash : c ≠ '/') :
    c ∈ td.data ∨ c ∈ src.data ∨ c ∈ ("release" : String).data := by
  unfold path_in_build at hc
  rcases pathJoin_chars_super _ rest c hc with h | h | h
  · exact absurd h hslash
  · rcases pathJoin_chars_super td "release" c h with h2 | h2 | h2
    · exact absurd h2 hslash
    · exact Or.inl h2
    · exact Or.inr (Or.inr h2)
  · rw [hrest] at h
    rcases joinComponents_chars_super _ c h with h2 | hpe
    · exact absurd h2 hslash
    · rcases hpe with ⟨p, hp, hcp⟩
      have hpfull : p ∈ fullComponents src := List.drop_subset _ _ hp
      unfold fullComponents at hpfull
      rcases List.mem_append.1 hpfull with hp2 | hp2
      · by_cases habs : strStartsWith src "/" = true
        · rw [if_pos habs] at hp2
          rw [List.mem_singleton.1 hp2] at hcp
          have h0 : ("/" : String).data = ['/'] := rfl
          rw [h0] at hcp
          exact absurd (List.mem_singleton.1 hcp) hslash
        · rw [if_neg habs] at hp2
          exact absurd hp2 (List.not_mem_nil p)
      · have hpsplit : p ∈ splitChar '/' src := by
          unfold pathComponents at hp2
          exact (List.mem_filter.1 hp2).1
        exact Or.inr (Or.inl (mem_splitChar_subset '/' src p hpsplit c hcp))

/-- The `target/release` source rewrite into a glob-free build directory
preserves glob-freeness of a literal source. -/
theorem effectiveSource_not_glob (td src : String)
    (h1 : is_glob_pattern td = false) (h2 : is_glob_pattern src = false) :
    is_glob_pattern (effectiveSource td src) = false := by
  unfold effectiveSource
  cases hsp : pathStripPrefix src "target/release" with
  | none => exact h2
  | some rest =>
    rcases pathStripPrefix_target_release_inv src rest hsp with ⟨hrest, _⟩
    rw [Bool.eq_false_iff]
    intro hcon
    have hcon2 := (is_glob_pattern_iff _).1 hcon
    have h1n := fun hh => (Bool.eq_false_iff.1 h1) ((is_glob_pattern_iff td).2 hh)
    have h2n := fun hh => (Bool.eq_false_iff.1 h2) ((is_glob_pattern_iff src).2 hh)
    rcases hcon2 with hc | hc | hc | hc
    · rcases effectiveSource_contains_bwd td src rest '*' hrest hc (by decide) with h | h | h
      · exact h1n (Or.inl h)
      · exact h2n (Or.inl h)
      · exact absurd h (by decide)
    · rcases effectiveSource_contains_bwd td src rest '[' hrest hc (by decide) with h | h | h
      · exact h1n (Or.inr (Or.inl h))
      · exact h2n (Or.inr (Or.inl h))
      · exact absurd h (by decide)
    · rcases effectiveSource_contains_bwd td src rest ']' hrest hc (by decide) with h | h | h
      · exact h1n (Or.inr (Or.inr (Or.inl h)))
      · exact h2n (Or.inr (Or.inr (Or.inl h)))
      · exact absurd h (by decide)
    · rcases effectiveSource_contains_bwd td src rest '!' hrest hc (by decide) with h | h | h
      · exact h1n (Or.inr (Or.inr (Or.inr h)))
      · exact h2n (Or.inr (Or.inr (Or.inr h)))
      · exact absurd h (by decide)

/-- Normal-form of `assetRule` on a well-formed three-element rule whose
permission string parses and whose (rewritten) source enumerates to a
given entry list. -/
theorem assetRule_eval (env : Env) (td src dst perm : String) (mode : Nat)
    (hmode : parseOctal perm = some mode)
    (entries : List (Except String String))
    (hg : env.glob (effectiveSource td src) = .ok entries) :
    assetRule env td [src, dst, perm] = entries.foldlM
      (fun acc entry =>
        match entry with
        | .error e => .error e
        | .ok source_file =>
          if env.isDir source_file = true then pure acc
          else do
            let target_file ←
              if is_glob_pattern (effectiveSource td src) = true then
                match pathStripPrefix source_file
                    (collectPath ((fullComponents (effectiveSource td src)).takeWhile
                      (fun c => !is_glob_pattern c))) with
                | some suffix => pure (pathJoin dst suffix)
                | none => Except.error "called Option::unwrap on a None value"
              else pure dst
            let a ← Asset.new source_file target_file mode
            pure (acc ++ [a])) [] := by
  unfold assetRule
  rw [show [src, dst, perm].get? 0 = some src from rfl]
  simp only []
  rw [show [src, dst, perm].get? 1 = some dst from rfl]
  simp only []
  rw [show [src, dst, perm].get? 2 = some perm from rfl]
  simp only []
  rw [hmode]
  simp only []
  rw [hg]

/-- Error propagation of `assetRule`: a fatal pattern error from the
filesystem enumeration aborts the rule. -/
theorem assetRule_glob_err (env : Env) (td src dst perm : String) (mode : Nat) (e : String)
    (hmode : parseOctal perm = some mode)
    (hg : env.glob (effectiveSource td src) = .error e) :
    assetRule env td [src, dst, perm] = .error e := by
  unfold assetRule
  rw [show [src, dst, perm].get? 0 = some src from rfl]
  simp only []
  rw [show [src, dst, perm].get? 1 = some dst from rfl]
  simp only []
  rw [show [src, dst, perm].get? 2 = some perm from rfl]
  simp only []
  rw [hmode]
  simp only []
  rw [hg]

/-- Running `take_assets` over a single rule is that rule's expansion. -/
theorem take_assets_single (self : Cargo) (env : Env) (td : String) (v : List String)
    (targets : List CargoMetadataTarget) (readme : Option String) (as : List Asset)
    (h : assetRule env td v = .ok as) :
    Cargo.take_assets self env td (some [v]) targets readme = .ok as := by
  unfold Cargo.take_assets
  simp only []
  rw [List.foldlM_cons _ _ _ _, h]
  rfl

theorem exceptBind_pure {ε α β : Type} (x : α) (f : α → Except ε β) :
    ((pure x : Except ε α) >>= f) = f x := rfl

/-- Folding over an entry list all of whose entries are successful reduces
to the fold of the per-match body over the matches. -/
theorem foldlM_map_ok (g : List Asset → String → Except String (List Asset)) (ms : List String) :
    ∀ acc : List Asset,
      ((ms.map (fun m => (Except.ok m : Except String String))).foldlM
        (fun acc entry =>
          match entry with
          | .error e => (.error e : Except String (List Asset))
          | .ok source_file => g acc source_file) acc)
      = ms.foldlM g acc := by
  induction ms with
  | nil =>
    intro acc
    rfl
  | cons m ms ih =>
    intro acc
    rw [List.map_cons, List.foldlM_cons _ _ _ _, List.foldlM_cons _ _ _ _]
    try simp only []
    cases hgm : g acc m with
    | error e => rw [exceptBind_err, exceptBind_err]
    | ok acc2 =>
      rw [exceptBind_ok, exceptBind_ok]
      exact ih acc2

/-- Evaluating the per-match fold of a rule, generically in the loop
body: directory matches are skipped, and every non-directory match
contributes exactly one Asset, in match order. -/
theorem foldMatches_ok (env : Env) (g : List Asset → String → Except String (List Asset))
    (assetOf : String → Asset) (ms : List String)
    (hskip : ∀ (acc : List Asset) (m : String), env.isDir m = true → g acc m = pure acc)
    (hdo : ∀ (acc : List Asset) (m : String), m ∈ ms → env.isDir m = false →
      g acc m = .ok (acc ++ [assetOf m])) :
    ∀ acc : List Asset,
      ms.foldlM g acc = .ok (acc ++ (ms.filter (fun m => !env.isDir m)).map assetOf) := by
  induction ms with
  | nil =>
    intro acc
    simp only [List.filter_nil, List.map_nil, List.append_nil]
    rfl
  | cons m ms ih =>
    intro acc
    rw [List.foldlM_cons _ _ _ _]
    have ih2 := ih (fun acc2 m2 hm2 => hdo acc2 m2 (List.mem_cons_of_mem m hm2))
    cases hdir : env.isDir m with
    | true =>
      rw [hskip acc m hdir, exceptBind_pure, ih2 acc, List.filter_cons]
      simp [hdir]
    | false =>
      rw [hdo acc m (List.mem_cons_self m ms) hdir, exceptBind_ok,
        ih2 (acc ++ [assetOf m]), List.filter_cons]
      simp [hdir]

/-- C2: for every declared asset rule whose source contains a glob
metacharacter, expansion — after the step-(1) rewrite of a source under
the conventional `target/release` marker into the resolved build
directory, a rewrite that preserves glob-ness — produces one Asset per
filesystem match that is not a directory, each Asset's destination being
the declared destination joined with the match's component suffix beyond
the pattern's literal prefix (conjunct 1); a fatal pattern or per-entry
enumeration error aborts the rule (conjunct 2); and the literal prefix
is the longest leading run of path components free of glob metacharacters
(conjuncts 3 and 4). The hypotheses inside conjunct 1 state glob
semantics: every match shares the pattern's absoluteness and strictly
extends its literal prefix. -/
theorem spec_glob_expansion (env : Env) (td src dst perm : String) (mode : Nat)
    (hglob : is_glob_pattern src = true)
    (hmode : parseOctal perm = some mode)
    (hdst : pathIsAbsolute dst = false) :
    (∀ ms : List String,
      env.glob (effectiveSource td src) = .ok (ms.map (fun m => .ok m)) →
      (∀ m ∈ ms, pathIsAbsolute m = pathIsAbsolute (effectiveSource td src)) →
      (∀ m ∈ ms, env.isDir m = false →
        ((fullComponents (collectPath ((fullComponents (effectiveSource td src)).takeWhile
            (fun c => !is_glob_pattern c)))).isPrefixOf (fullComponents m) = true
          ∧ (fullComponents (collectPath ((fullComponents (effectiveSource td src)).takeWhile
              (fun c => !is_glob_pattern c)))).length < (fullComponents m).length)) →
      assetRule env td [src, dst, perm]
        = .ok ((ms.filter (fun m => !env.isDir m)).map (fun m =>
            ⟨m, pathJoin dst (joinComponents ((fullComponents m).drop
              (fullComponents (collectPath ((fullComponents (effectiveSource td src)).takeWhile
                (fun c => !is_glob_pattern c)))).length)), mode⟩)))
    ∧ (∀ e, env.glob (effectiveSource td src) = .error e →
        assetRule env td [src, dst, perm] = .error e)
    ∧ (∀ cmp ∈ (fullComponents (effectiveSource td src)).takeWhile
          (fun c => !is_glob_pattern c),
        is_glob_pattern cmp = false)
    ∧ (∀ ps, ps <+: fullComponents (effectiveSource td src) →
        (∀ cmp ∈ ps, is_glob_pattern cmp = false) →
        ps <+: (fullComponents (effectiveSource td src)).takeWhile
          (fun c => !is_glob_pattern c)) := by
  refine ⟨?_, ?_, ?_, ?_⟩
  · intro ms hgms habs hpre
    have hglobSp : is_glob_pattern (effectiveSource td src) = true :=
      effectiveSource_glob td src hglob
    have hstripOk : ∀ m ∈ ms, env.isDir m = false →
        pathStripPrefix m (collectPath ((fullComponents (effectiveSource td src)).takeWhile
            (fun c => !is_glob_pattern c)))
          = some (joinComponents ((fullComponents m).drop
            (fullComponents (collectPath ((fullComponents (effectiveSource td src)).takeWhile
              (fun c => !is_glob_pattern c)))).length)) := by
      intro m hm hdir
      rcases hpre m hm hdir with ⟨hpf, _⟩
      unfold pathStripPrefix
      rw [if_pos hpf]
    have hnewOk : ∀ m ∈ ms, env.isDir m = false →
        Asset.new m (pathJoin dst (joinComponents ((fullComponents m).drop
            (fullComponents (collectPath ((fullComponents (effectiveSource td src)).takeWhile
              (fun c => !is_glob_pattern c)))).length))) mode
          = .ok (⟨m, pathJoin dst (joinComponents ((fullComponents m).drop
              (fullComponents (collectPath ((fullComponents (effectiveSource td src)).takeWhile
                (fun c => !is_glob_pattern c)))).length)), mode⟩ : Asset) := by
      intro m hm hdir
      rcases hpre m hm hdir with ⟨hpf, hlen⟩
      set pre := collectPath ((fullComponents (effectiveSource td src)).takeWhile
        (fun c => !is_glob_pattern c)) with hpredef
      have hclean : ∀ cmp ∈ (fullComponents m).drop (fullComponents pre).length,
          cmp ≠ "" ∧ '/' ∉ cmp.data := by
        intro cmp hcmp
        cases hsrcabs : pathIsAbsolute (effectiveSource td src) with
        | false =>
          have hmabs : pathIsAbsolute m = false := by rw [habs m hm, hsrcabs]
          have hfc : fullComponents m = pathComponents m := by
            unfold fullComponents
            rw [show strStartsWith m "/" = false from hmabs]
            simp
          rw [hfc] at hcmp
          rcases mem_pathComponents m cmp (List.drop_subset _ _ hcmp) with ⟨hs, hne, _⟩
          exact ⟨hne, hs⟩
        | true =>
          have hmabs : pathIsAbsolute m = true := by rw [habs m hm, hsrcabs]
          have hfcm : fullComponents m = "/" :: pathComponents m := by
            unfold fullComponents
            rw [show strStartsWith m "/" = true from hmabs]
            simp
          have hfcs : fullComponents (effectiveSource td src)
              = "/" :: pathComponents (effectiveSource td src) := by
            unfold fullComponents
            rw [show strStartsWith (effectiveSource td src) "/" = true from hsrcabs]
            simp
          have htw : (fullComponents (effectiveSource td src)).takeWhile
              (fun c => !is_glob_pattern c)
              = "/" :: (pathComponents (effectiveSource td src)).takeWhile
                  (fun c => !is_glob_pattern c) := by
            rw [hfcs, List.takeWhile_cons, if_pos (by decide)]
          have hpreabs : strStartsWith pre "/" = true := by
            rw [hpredef, htw]
            show strStartsWith ("/" ++ joinComponents
              ((pathComponents (effectiveSource td src)).takeWhile
                (fun c => !is_glob_pattern c))) "/" = true
            exact (pathIsAbsolute_iff _).2 ⟨_, by rw [strData_append]; rfl⟩
          have hk : 1 ≤ (fullComponents pre).length := by
            unfold fullComponents
            rw [hpreabs]
            simp
          rcases Nat.exists_eq_add_of_le hk with ⟨j, hj⟩
          rw [hfcm, hj, Nat.add_comm 1 j, List.drop_succ_cons] at hcmp
          rcases mem_pathComponents m cmp (List.drop_subset _ _ hcmp) with ⟨hs, hne, _⟩
          exact ⟨hne, hs⟩
      have hdropne : (fullComponents m).drop (fullComponents pre).length ≠ [] := by
        rw [Ne, List.drop_eq_nil_iff]
        omega
      have hsfx := joinComponents_clean _ hclean
      have hsfxne := hsfx.2 hdropne
      exact asset_new_plain m _ mode (pathJoin_not_abs dst _ hdst hsfx.1)
        (pathJoin_no_trailing_slash dst _ hsfxne.1 hsfxne.2)
    have heval := assetRule_eval env td src dst perm mode hmode _ hgms
    have hmap := foldlM_map_ok
      (fun acc source_file =>
        if env.isDir source_file = true then pure acc
        else do
          let target_file ←
            if is_glob_pattern (effectiveSource td src) = true then
              match pathStripPrefix source_file
                  (collectPath ((fullComponents (effectiveSource td src)).takeWhile
                    (fun c => !is_glob_pattern c))) with
              | some suffix => pure (pathJoin dst suffix)
              | none => Except.error "called Option::unwrap on a None value"
            else pure dst
          let a ← Asset.new source_file target_file mode
          pure (acc ++ [a]))
      ms []
    have happ := foldMatches_ok env
      (fun acc source_file =>
        if env.isDir source_file = true then pure acc
        else do
          let target_file ←
            if is_glob_pattern (effectiveSource td src) = true then
              match pathStripPrefix source_file
                  (collectPath ((fullComponents (effectiveSource td src)).takeWhile
                    (fun c => !is_glob_pattern c))) with
              | some suffix => pure (pathJoin dst suffix)
              | none => Except.error "called Option::unwrap on a None value"
            else pure dst
          let a ← Asset.new source_file target_file mode
          pure (acc ++ [a]))
      (fun m => ⟨m, pathJoin dst (joinComponents ((fullComponents m).drop
          (fullComponents (collectPath ((fullComponents (effectiveSource td src)).takeWhile
            (fun c => !is_glob_pattern c)))).length)), mode⟩)
      ms
      (by
        intro acc m h
        simp only []
        simp [h])
      (by
        intro acc m hm h
        try simp only []
        rw [h, if_neg Bool.false_ne_true]
        try simp only []
        rw [if_pos hglobSp, hstripOk m hm h]
        try simp only []
        rw [exceptBind_pure]
        try simp only []
        rw [hnewOk m hm h, exceptBind_ok]
        rfl)
      []
    rw [List.nil_append] at happ
    exact heval.trans (hmap.trans happ)
  · intro e hge
    exact assetRule_glob_err env td src dst perm mode e hmode hge
  · intro cmp hc
    have h2 := List.mem_takeWhile_imp hc
    simpa using h2
  · intro ps hp hall
    exact prefix_takeWhile_of_all _ (fullComponents (effectiveSource td src)) ps hp
      (fun a ha => by simp [hall a ha])

/-- A filesystem with two binaries and a subdirectory under the resolved
build directory `t/release`, matching the rewritten pattern
`t/release/b*`. -/
def envGlob : Env :=
  { glob := fun s => if s = "t/release/b*"
      then .ok [.ok "t/release/bin1", .ok "t/release/bdir", .ok "t/release/bin2"]
      else .ok [],
    isDir := fun s => s == "t/release/bdir",
    readFile := fun _ => .error "io error", pathExists := fun _ => false,
    resolve := fun _ _ => .error "resolve error", hostArch := "x86_64" }

/-- Witness for C2: the glob rule `target/release/b*` is rewritten into
the build directory `t` and yields, over `envGlob`, one Asset per
non-directory match, with destinations joined past the literal prefix
`t/release`. -/
theorem spec_glob_expansion_witness :
    assetRule envGlob "t" ["target/release/b*", "usr/bin", "644"]
      = .ok [⟨"t/release/bin1", "usr/bin/bin1", 420⟩,
             ⟨"t/release/bin2", "usr/bin/bin2", 420⟩] := by
  have h := (spec_glob_expansion envGlob "t" "target/release/b*" "usr/bin" "644" 420
      (by decide) (by decide) (by decide)).1
    ["t/release/bin1", "t/release/bdir", "t/release/bin2"]
    (by decide) (by decide) (by decide)
  rw [h]
  decide

/-- C8 as frozen is false on the code: a literal rule whose source does
not exist on the filesystem yields zero assets, not exactly one. -/
theorem spec_literal_rule_counterexample :
    is_glob_pattern "foo/bar" = false
    ∧ Cargo.take_assets cargoNoDesc envNoFs "target" (some [["foo/bar", "usr/bar", "644"]])
        targetsFoo none = .ok [] :=
  ⟨by decide, by decide⟩

/-- C8 amended: every literal (glob-free) asset rule — including the
canonical rules under `target/release`, whose source is rewritten into
the build directory, a rewrite that preserves glob-freeness when the
build directory is itself glob-free — yields at most one Asset; every
produced Asset carries the rewritten source and the declared destination
verbatim; and the count is exactly one precisely when the rewritten
literal source matches an existing non-directory file, zero when there
is no match. -/
theorem spec_literal_rule_amended (self : Cargo) (env : Env) (td src dst perm : String)
    (mode : Nat) (targets : List CargoMetadataTarget) (readme : Option String)
    (htd : is_glob_pattern td = false)
    (hlit : is_glob_pattern src = false)
    (hmode : parseOctal perm = some mode)
    (hdstA : pathIsAbsolute dst = false)
    (hdstS : strEndsWith dst "/" = false)
    (hg : env.glob (effectiveSource td src) = .ok []
      ∨ env.glob (effectiveSource td src) = .ok [.ok (effectiveSource td src)]) :
    (∃ as, Cargo.take_assets self env td (some [[src, dst, perm]]) targets readme = .ok as
      ∧ as.length ≤ 1
      ∧ ∀ a ∈ as, a = (⟨effectiveSource td src, dst, mode⟩ : Asset))
    ∧ (env.glob (effectiveSource td src) = .ok [.ok (effectiveSource td src)] →
        env.isDir (effectiveSource td src) = false →
        Cargo.take_assets self env td (some [[src, dst, perm]]) targets readme
          = .ok [⟨effectiveSource td src, dst, mode⟩])
    ∧ (env.glob (effectiveSource td src) = .ok [] →
        Cargo.take_assets self env td (some [[src, dst, perm]]) targets readme = .ok []) := by
  have hsplat : is_glob_pattern (effectiveSource td src) = false :=
    effectiveSource_not_glob td src htd hlit
  have hrule : ∀ ms : List String,
      env.glob (effectiveSource td src) = .ok (ms.map (fun m => .ok m)) →
      (∀ m ∈ ms, m = effectiveSource td src) →
      assetRule env td [src, dst, perm]
        = .ok ((ms.filter (fun m => !env.isDir m)).map
            (fun _ => (⟨effectiveSource td src, dst, mode⟩ : Asset))) := by
    intro ms hgms hms
    have heval := assetRule_eval env td src dst perm mode hmode _ hgms
    have hmap := foldlM_map_ok
      (fun acc source_file =>
        if env.isDir source_file = true then pure acc
        else do
          let target_file ←
            if is_glob_pattern (effectiveSource td src) = true then
              match pathStripPrefix source_file
                  (collectPath ((fullComponents (effectiveSource td src)).takeWhile
                    (fun c => !is_glob_pattern c))) with
              | some suffix => pure (pathJoin dst suffix)
              | none => Except.error "called Option::unwrap on a None value"
            else pure dst
          let a ← Asset.new source_file target_file mode
          pure (acc ++ [a]))
      ms []
    have happ := foldMatches_ok env
      (fun acc source_file =>
        if env.isDir source_file = true then pure acc
        else do
          let target_file ←
            if is_glob_pattern (effectiveSource td src) = true then
              match pathStripPrefix source_file
                  (collectPath ((fullComponents (effectiveSource td src)).takeWhile
                    (fun c => !is_glob_pattern c))) with
              | some suffix => pure (pathJoin dst suffix)
              | none => Except.error "called Option::unwrap on a None value"
            else pure dst
          let a ← Asset.new source_file target_file mode
          pure (acc ++ [a]))
      (fun _ => (⟨effectiveSource td src, dst, mode⟩ : Asset))
      ms
      (by
        intro acc m h
        simp only []
        simp [h])
      (by
        intro acc m hm h
        have hmsrc := hms m hm
        subst hmsrc
        try simp only []
        rw [h, if_neg Bool.false_ne_true]
        try simp only []
        rw [if_neg (by rw [hsplat]; exact Bool.false_ne_true)]
        try simp only []
        rw [exceptBind_pure]
        try simp only []
        rw [asset_new_plain _ dst mode hdstA hdstS, exceptBind_ok]
        rfl)
      []
    rw [List.nil_append] at happ
    exact heval.trans (hmap.trans happ)
  refine ⟨?_, ?_, ?_⟩
  · rcases hg with hg2 | hg2
    · have hr : assetRule env td [src, dst, perm] = .ok [] :=
        hrule [] hg2 (fun m hm => absurd hm (List.not_mem_nil m))
      exact ⟨[], take_assets_single self env td _ targets readme _ hr,
        by decide, fun a ha => absurd ha (List.not_mem_nil a)⟩
    · have hr := hrule [effectiveSource td src] hg2
        (fun m hm => List.mem_singleton.1 hm)
      refine ⟨_, take_assets_single self env td _ targets readme _ hr, ?_, ?_⟩
      · simp only [List.length_map]
        exact le_trans (List.length_filter_le _ _) (by simp)
      · intro a ha
        rcases List.mem_map.1 ha with ⟨m, _, hma⟩
        exact hma.symm
  · intro hgs hdir
    have hr := hrule [effectiveSource td src] hgs (fun m hm => List.mem_singleton.1 hm)
    rw [take_assets_single self env td _ targets readme _ hr]
    simp [hdir]
  · intro hgs
    have hr : assetRule env td [src, dst, perm] = .ok [] :=
      hrule [] hgs (fun m hm => absurd hm (List.not_mem_nil m))
    rw [take_assets_single self env td _ targets readme _ hr]

/-- A filesystem where the literal build product `t/release/app` exists. -/
def envLit : Env :=
  { glob := fun s => if s = "t/release/app" then .ok [.ok "t/release/app"] else .ok [],
    isDir := fun _ => false,
    readFile := fun _ => .error "io error", pathExists := fun _ => false,
    resolve := fun _ _ => .error "resolve error", hostArch := "x86_64" }

/-- Witness for C8 (amended): a literal rule under `target/release` is
rewritten into the build directory `t`; the existing rewritten source
yields exactly one Asset with the declared destination verbatim. -/
theorem spec_literal_rule_amended_witness :
    Cargo.take_assets cargoNoDesc envLit "t"
        (some [["target/release/app", "usr/bin/app", "644"]]) targetsFoo none
      = .ok [⟨"t/release/app", "usr/bin/app", 420⟩] :=
  (spec_literal_rule_amended cargoNoDesc envLit "t" "target/release/app" "usr/bin/app" "644"
    420 targetsFoo none (by decide) (by decide) (by decide) (by decide) (by decide)
    (Or.inr (by decide))).2.1 (by decide) (by decide)
